import Mathlib

/-!
# Verification of the Splash codec core

Shallow embedding of the Splash codec (FFmpeg patch: `splashenc.c`, the shared
engine `updateLines` / `splash_init`, and the decoder `splash_decode`).

Modelling conventions:
* `uint8_t` reads are modelled by `% 256`; `uint8_t` stores of the C `int`
  results are modelled by `Int.emod · 256`.
* The C `float`/`double` arithmetic of the engine (`round(xError[ii]*alpha)`,
  `xerr`, `yerr`, `xyerr`, `round(256*xyerr)`) is modelled exactly over `ℚ`
  with `cround`, the C `round` (round half away from zero).  The test
  `fillAlpha > 0`, where `fillAlpha = 1 - sqrt(dx*dx+dy*dy)/radius`, is
  equivalent to `dx^2 + dy^2 < radius^2` and is embedded that way (the value of
  `fillAlpha` is used only for this sign test).
* Uninitialized heap memory obtained from `av_malloc` is modelled by an
  explicit byte-supply function `junk : ℕ → ℕ` (read through `% 256`).
* The C do/while driver loops run at most `width + height + 1` iterations
  (every iteration returning 1 zeroes a previously nonzero ruler entry, see
  `updateLines_measure_lt` and `encodeLoop_fuel_stable` below), so they are
  embedded with that fuel.
-/

namespace Splash

/-- C `round` (as in `round(3)` from libm): round half away from zero. -/
def cround (q : ℚ) : ℤ :=
  if 0 ≤ q then ⌊q + 1/2⌋ else -⌊-q + 1/2⌋

/-- The engine's `round(...)` on nonnegative operands, computed exactly over
the rationals but in integer arithmetic:
`round(x/y) = floor(x/y + 1/2) = (2x + y) / (2y)` for `y > 0` (round half
away from zero equals round half up on nonnegatives; see
`natRound_eq_cround`).  For `y = 0` both sides are 0 (division by zero is 0
in `ℚ` and in `ℕ`). -/
def natRound (x y : Nat) : Nat :=
  (2 * x + y) / (2 * y)

/-- Read one byte of a buffer (C `uint8_t` dereference of `data[p]`). -/
def byteAt (data : List Nat) (p : Nat) : Nat :=
  data.getD p 0 % 256

/-- Store a C `int` into a `uint8_t` cell (conversion modulo 256). -/
def store8 (v : ℤ) : Nat :=
  (Int.emod v 256).toNat

/-- The per-codec state of `SplashContext` that the engine mutates:
the two error rulers, the canvas bytes (`pixels`, 4 bytes per pixel of which
the engine touches the first 3), the stream cursor `pos` and `numPixels`. -/
structure SplashState where
  xErr : List Nat
  yErr : List Nat
  pixels : List Nat
  pos : Nat
  numPixels : Nat
deriving Repr, DecidableEq

/-- The scan loop of `updateLines`:
`worstXerr = xError[0]; worstXi = 0; for (i = 1; i < width; i++) ...`,
keeping a strictly greater value only (first occurrence wins on ties).
`steps` counts the remaining loop iterations, `i` is the loop index. -/
def worstFrom (l : List Nat) (v idx i : Nat) : Nat → Nat × Nat
  | 0 => (v, idx)
  | steps + 1 =>
    if l.getD i 0 > v then worstFrom l (l.getD i 0) i (i + 1) steps
    else worstFrom l v idx (i + 1) steps

/-- `worstOf l n` scans entries `0 .. n-1` of ruler `l` for the maximum and
its first index, exactly as the C loop starting from index 1. -/
def worstOf (l : List Nat) (n : Nat) : Nat × Nat :=
  worstFrom l (l.getD 0 0) 0 1 (n - 1)

/-- Downward range expansion:
`for (r = 1; r < radius; r++) { if (lo == 0 || err[lo-1] == 0) break; --lo; }`.
The fuel argument is `radius - 1`. -/
def expandLo (err : List Nat) : Nat → Nat → Nat
  | lo, 0 => lo
  | lo, fuel + 1 =>
    if lo = 0 ∨ err.getD (lo - 1) 0 = 0 then lo
    else expandLo err (lo - 1) fuel

/-- Upward range expansion:
`for (r = 1; r < radius; r++) { if (hi >= bound-1 || err[hi+1] == 0) break; ++hi; }`.
The fuel argument is `radius - 1`. -/
def expandHi (err : List Nat) (bound : Nat) : Nat → Nat → Nat
  | hi, 0 => hi
  | hi, fuel + 1 =>
    if bound - 1 ≤ hi ∨ err.getD (hi + 1) 0 = 0 then hi
    else expandHi err bound (hi + 1) fuel

/-- Ruler rebalance (Step 4):
`err[ii] = round(err[ii] * |ii-p| / radius)` on `[lo..hi]`, forcing a
non-pivot entry that became zero to 1, and finally `err[p] = 0`. -/
def rebalance (err : List Nat) (p lo hi radius : Nat) : List Nat :=
  (List.range err.length).map fun ii =>
    if lo ≤ ii ∧ ii ≤ hi then
      if ii = p then 0
      else
        let v : Nat := natRound (err.getD ii 0 * Nat.dist ii p) radius
        if v = 0 then 1 else v
    else err.getD ii 0

/-- The blend weight `alpha = 256 - round(256 * xyerr)` where
`xyerr = (xE/maxError + yE/maxError) / 2`; exactly,
`256 * xyerr = 128 * (xE + yE) / maxError` (see `splatAlpha_eq_cround`). -/
def splatAlpha (xE yE maxError : Nat) : ℤ :=
  256 - natRound (128 * (xE + yE)) maxError

/-- One blended channel: `((src * alpha) + (old * (256 - alpha))) >> 8`
(arithmetic shift on nonnegative values = floor division by 256). -/
def blend8 (src old : Nat) (alpha : ℤ) : ℤ :=
  Int.fdiv ((src : ℤ) * alpha + (old : ℤ) * (256 - alpha)) 256

/-- The splat of one sample into one canvas cell `(ii, jj)` around cross point
`(i, j)`.  The C guard `fillAlpha > 0` with
`fillAlpha = 1 - sqrt((ii-i)^2 + (jj-j)^2)/radius` holds iff
`(ii-i)^2 + (jj-j)^2 < radius^2`. -/
def splatPixel (width radius maxError : Nat) (xErr yErr : List Nat)
    (i j : Nat) (sR sG sB : Nat) (ii jj : Nat) (pixels : List Nat) : List Nat :=
  if Nat.dist ii i ^ 2 + Nat.dist jj j ^ 2 < radius ^ 2 then
    let alpha : ℤ := splatAlpha (xErr.getD ii 0) (yErr.getD jj 0) maxError
    let k := (jj * width + ii) * 4
    let newR := blend8 sR (pixels.getD k 0) alpha
    let newG := blend8 sG (pixels.getD (k + 1) 0) alpha
    let newB := blend8 sB (pixels.getD (k + 2) 0) alpha
    ((pixels.set k (store8 newR)).set (k + 1) (store8 newG)).set (k + 2) (store8 newB)
  else pixels

/-- Column-major rectangle: `for (jj = minJ; jj <= maxJ; jj++)
for (ii = minI; ii <= maxI; ii++)` splat. -/
def splatRectCM (width radius maxError : Nat) (xErr yErr : List Nat)
    (i j : Nat) (sR sG sB : Nat) (minI maxI minJ maxJ : Nat)
    (pixels : List Nat) : List Nat :=
  (List.range' minJ (maxJ + 1 - minJ)).foldl
    (fun px jj =>
      (List.range' minI (maxI + 1 - minI)).foldl
        (fun px2 ii => splatPixel width radius maxError xErr yErr i j sR sG sB ii jj px2)
        px)
    pixels

/-- Row-major rectangle: `for (ii = minI; ii <= maxI; ii++)
for (jj = minJ; jj <= maxJ; jj++)` splat. -/
def splatRectRM (width radius maxError : Nat) (xErr yErr : List Nat)
    (i j : Nat) (sR sG sB : Nat) (minI maxI minJ maxJ : Nat)
    (pixels : List Nat) : List Nat :=
  (List.range' minI (maxI + 1 - minI)).foldl
    (fun px ii =>
      (List.range' minJ (maxJ + 1 - minJ)).foldl
        (fun px2 jj => splatPixel width radius maxError xErr yErr i j sR sG sB ii jj px2)
        px)
    pixels

/-- Reading one RGB sample at a cross point: in encode mode from the target
image (three `uint8_t` reads), in decode mode three bytes from the stream. -/
def readSample (encodeDecode : Bool) (pic : Nat → Nat → Nat × Nat × Nat)
    (data : List Nat) (pos i j : Nat) : Nat × Nat × Nat :=
  if encodeDecode then
    ((pic i j).1 % 256, (pic i j).2.1 % 256, (pic i j).2.2 % 256)
  else
    (byteAt data pos, byteAt data (pos + 1), byteAt data (pos + 2))

/-- The part of the engine state threaded through the cross-point scan. -/
structure ScanSt where
  pixels : List Nat
  pos : Nat
  numPixels : Nat
deriving Repr, DecidableEq

/-- Process one column-major cross point at row `j` (pivot column `i`):
read/emit the sample, expand the perpendicular range on `yErr`, splat.
Returns the updated scan state and the bytes written to the stream
(encode mode; `[]` in decode mode). -/
def processCrossCM (encodeDecode : Bool) (pic : Nat → Nat → Nat × Nat × Nat)
    (data : List Nat) (height radius width maxError : Nat)
    (xErr2 yErr : List Nat) (i minI maxI : Nat) (j : Nat)
    (st : ScanSt) : ScanSt × List Nat :=
  let s := readSample encodeDecode pic data st.pos i j
  let out := if encodeDecode then [s.1, s.2.1, s.2.2] else []
  let np := if encodeDecode then st.numPixels + 1 else st.numPixels
  let minJ := expandLo yErr j (radius - 1)
  let maxJ := expandHi yErr height j (radius - 1)
  let px := splatRectCM width radius maxError xErr2 yErr i j s.1 s.2.1 s.2.2
              minI maxI minJ maxJ st.pixels
  (⟨px, st.pos + 3, np⟩, out)

/-- The column-major cross-point scan over rows `j = 0 .. height-1`:
rows with `yError[j] == 0` are processed, the others skipped. -/
def scanCM (encodeDecode : Bool) (pic : Nat → Nat → Nat × Nat × Nat)
    (data : List Nat) (height radius width maxError : Nat)
    (xErr2 yErr : List Nat) (i minI maxI : Nat) :
    List Nat → ScanSt → ScanSt × List Nat
  | [], st => (st, [])
  | j :: js, st =>
    if yErr.getD j 0 = 0 then
      let r1 := processCrossCM encodeDecode pic data height radius width maxError
                  xErr2 yErr i minI maxI j st
      let r2 := scanCM encodeDecode pic data height radius width maxError
                  xErr2 yErr i minI maxI js r1.1
      (r2.1, r1.2 ++ r2.2)
    else
      scanCM encodeDecode pic data height radius width maxError
        xErr2 yErr i minI maxI js st

/-- Process one row-major cross point at column `i` (pivot row `j`). -/
def processCrossRM (encodeDecode : Bool) (pic : Nat → Nat → Nat × Nat × Nat)
    (data : List Nat) (width radius maxError : Nat)
    (xErr yErr2 : List Nat) (j minJ maxJ : Nat) (i : Nat)
    (st : ScanSt) : ScanSt × List Nat :=
  let s := readSample encodeDecode pic data st.pos i j
  let out := if encodeDecode then [s.1, s.2.1, s.2.2] else []
  let np := if encodeDecode then st.numPixels + 1 else st.numPixels
  let minI := expandLo xErr i (radius - 1)
  let maxI := expandHi xErr width i (radius - 1)
  let px := splatRectRM width radius maxError xErr yErr2 i j s.1 s.2.1 s.2.2
              minI maxI minJ maxJ st.pixels
  (⟨px, st.pos + 3, np⟩, out)

/-- The row-major cross-point scan over columns `i = 0 .. width-1`. -/
def scanRM (encodeDecode : Bool) (pic : Nat → Nat → Nat × Nat × Nat)
    (data : List Nat) (width radius maxError : Nat)
    (xErr yErr2 : List Nat) (j minJ maxJ : Nat) :
    List Nat → ScanSt → ScanSt × List Nat
  | [], st => (st, [])
  | i :: is, st =>
    if xErr.getD i 0 = 0 then
      let r1 := processCrossRM encodeDecode pic data width radius maxError
                  xErr yErr2 j minJ maxJ i st
      let r2 := scanRM encodeDecode pic data width radius maxError
                  xErr yErr2 j minJ maxJ is r1.1
      (r2.1, r1.2 ++ r2.2)
    else
      scanRM encodeDecode pic data width radius maxError
        xErr yErr2 j minJ maxJ is st

/-- One engine iteration, `updateLines`.  Returns `(done, state', out)` where
`done` is the C return value (`false` = 0, nothing to do) and `out` are the
bytes emitted to the stream in encode mode. -/
def updateLines (width height radius : Nat) (encodeDecode : Bool)
    (pic : Nat → Nat → Nat × Nat × Nat) (data : List Nat)
    (s : SplashState) : Bool × SplashState × List Nat :=
  let wx := worstOf s.xErr width
  let wy := worstOf s.yErr height
  if wx.1 + wy.1 = 0 then (false, s, [])
  else if wx.1 > wy.1 then
    -- column major
    let i := wx.2
    let minI := expandLo s.xErr i (radius - 1)
    let maxI := expandHi s.xErr width i (radius - 1)
    let maxError := s.xErr.getD i 0
    let xErr2 := rebalance s.xErr i minI maxI radius
    let r := scanCM encodeDecode pic data height radius width maxError
               xErr2 s.yErr i minI maxI (List.range height)
               ⟨s.pixels, s.pos, s.numPixels⟩
    (true, ⟨xErr2, s.yErr, r.1.pixels, r.1.pos, r.1.numPixels⟩, r.2)
  else
    -- row major
    let j := wy.2
    let minJ := expandLo s.yErr j (radius - 1)
    let maxJ := expandHi s.yErr height j (radius - 1)
    let maxError := s.yErr.getD j 0
    let yErr2 := rebalance s.yErr j minJ maxJ radius
    let r := scanRM encodeDecode pic data width radius maxError
               s.xErr yErr2 j minJ maxJ (List.range width)
               ⟨s.pixels, s.pos, s.numPixels⟩
    (true, ⟨s.xErr, yErr2, r.1.pixels, r.1.pos, r.1.numPixels⟩, r.2)

/-- `splash_init`: the canvas buffer holds `width*height*4` bytes from
`av_malloc` (uninitialized, byte `k` reading as `junk k % 256`); the init
loop then stores `0x7f` into the first `3*width*height` bytes only
(three stores per loop pass, `width*height` passes). -/
def splash_init_pixels (width height : Nat) (junk : Nat → Nat) : List Nat :=
  (List.range (width * height * 4)).map fun k =>
    if k < 3 * (width * height) then 0x7f else junk k % 256

/-- Encoder do/while loop:
`do { if (!updateLines(..)) break; } while (ctx->numPixels < maxPixels);`
(fuel-bounded; `width + height + 1` fuel is exact, see
`encodeLoop_fuel_stable`).  Also returns the bytes emitted. -/
def encodeLoop (width height radius maxPixels : Nat)
    (pic : Nat → Nat → Nat × Nat × Nat) :
    Nat → SplashState → SplashState × List Nat
  | 0, s => (s, [])
  | fuel + 1, s =>
    let r := updateLines width height radius true pic [] s
    if r.1 = false then (r.2.1, r.2.2)
    else if r.2.1.numPixels < maxPixels then
      let rest := encodeLoop width height radius maxPixels pic fuel r.2.1
      (rest.1, r.2.2 ++ rest.2)
    else (r.2.1, r.2.2)

/-- Decoder do/while loop:
`do { if (!updateLines(..)) break; } while (ctx->pos < ctx->size);`. -/
def decodeLoop (width height radius size : Nat) (data : List Nat) :
    Nat → SplashState → SplashState
  | 0, s => s
  | fuel + 1, s =>
    let r := updateLines width height radius false (fun _ _ => (0, 0, 0)) data s
    if r.1 = false then r.2.1
    else if r.2.1.pos < size then decodeLoop width height radius size data fuel r.2.1
    else r.2.1

/-- `n` consecutive engine iterations in one mode, with the emitted bytes
accumulated (used to state the per-iteration encoder/decoder determinism
contract). -/
def engineIter (width height radius : Nat) (b : Bool)
    (pic : Nat → Nat → Nat × Nat × Nat) (data : List Nat) :
    Nat → SplashState → SplashState × List Nat
  | 0, s => (s, [])
  | n + 1, s =>
    let r := updateLines width height radius b pic data s
    let rest := engineIter width height radius b pic data n r.2.1
    (rest.1, r.2.2 ++ rest.2)

/-- Little-endian 24-bit serialization of a ruler value:
`*pData++ = err; *pData++ = err >> 8; *pData++ = err >> 16;`. -/
def le24 (e : Nat) : List Nat :=
  [e % 256, e / 256 % 256, e / 65536 % 256]

/-- All ruler values of a list, serialized in order. -/
def le24List (l : List Nat) : List Nat :=
  (l.map le24).flatten

/-- Little-endian 24-bit parse:
`err = *p++; err |= *p++ << 8; err |= *p++ << 16;`. -/
def parse24 (data : List Nat) (off : Nat) : Nat :=
  byteAt data off + byteAt data (off + 1) * 256 + byteAt data (off + 2) * 65536

/-- The decoder's initial-ruler read loop: `count` consecutive 24-bit values
starting at byte offset `off` of the data area. -/
def readErrs (data : List Nat) (off count : Nat) : List Nat :=
  (List.range count).map fun idx => parse24 data (off + 3 * idx)

/-- One column of the encoder's initial `xError`:
`err += |pixels[k+c] - rgb[c]|` summed over the rows, clamped to `0xffffff`. -/
def colErr (width height : Nat) (pixels : List Nat)
    (pic : Nat → Nat → Nat × Nat × Nat) (i : Nat) : Nat :=
  let e := (List.range height).foldl
    (fun acc j =>
      let k := (j * width + i) * 4
      acc + Nat.dist (pixels.getD k 0) ((pic i j).1 % 256)
          + Nat.dist (pixels.getD (k + 1) 0) ((pic i j).2.1 % 256)
          + Nat.dist (pixels.getD (k + 2) 0) ((pic i j).2.2 % 256))
    0
  if e > 0xffffff then 0xffffff else e

/-- One row of the encoder's initial `yError` (symmetric to `colErr`). -/
def rowErr (width : Nat) (pixels : List Nat)
    (pic : Nat → Nat → Nat × Nat × Nat) (j : Nat) : Nat :=
  let e := (List.range width).foldl
    (fun acc i =>
      let k := (j * width + i) * 4
      acc + Nat.dist (pixels.getD k 0) ((pic i j).1 % 256)
          + Nat.dist (pixels.getD (k + 1) 0) ((pic i j).2.1 % 256)
          + Nat.dist (pixels.getD (k + 2) 0) ((pic i j).2.2 % 256))
    0
  if e > 0xffffff then 0xffffff else e

/-- The encoder's initial `xError` ruler. -/
def xErrInit (width height : Nat) (pixels : List Nat)
    (pic : Nat → Nat → Nat × Nat × Nat) : List Nat :=
  (List.range width).map (colErr width height pixels pic)

/-- The encoder's initial `yError` ruler. -/
def yErrInit (width height : Nat) (pixels : List Nat)
    (pic : Nat → Nat → Nat × Nat × Nat) : List Nat :=
  (List.range height).map (rowErr width pixels pic)

/-- The 12-byte packet header written by the encoder:
length 12 (24-bit LE), magic `splash`, version 1, radius byte, zero. -/
def packetHeader (radius : Nat) : List Nat :=
  [12, 0, 0, 115, 112, 108, 97, 115, 104, 1, radius % 256, 0]

/-- Result of one `splash_encode` call: final context state, the packet
bytes, and the packet size field `HEADER_LENGTH + ctx->pos`. -/
structure EncodeResult where
  state : SplashState
  packet : List Nat
  packetSize : Nat
deriving Repr, DecidableEq

/-- `splash_encode`: compute and emit the initial rulers, pick the frame
budget `maxPixels` (from `ppk` on frame 0, else `ppf`), run the engine loop,
and assemble the packet `[header | xErr | yErr | samples]`. -/
def splash_encode (width height radius frameNumber : Nat) (ppf ppk : ℚ)
    (pixels0 : List Nat) (pic : Nat → Nat → Nat × Nat × Nat) : EncodeResult :=
  let xe := xErrInit width height pixels0 pic
  let ye := yErrInit width height pixels0 pic
  let s0 : SplashState := ⟨xe, ye, pixels0, 3 * (width + height), 0⟩
  -- maxPixels = round(width*height / ppk) (resp. ppf), computed exactly from
  -- the rational parameter's numerator and denominator (`rndDivPP_eq_cround`)
  let maxPixels : Nat :=
    if frameNumber = 0 then natRound (width * height * ppk.den) ppk.num.toNat
    else natRound (width * height * ppf.den) ppf.num.toNat
  let r := encodeLoop width height radius maxPixels pic (width + height + 1) s0
  let packet := packetHeader radius ++ le24List xe ++ le24List ye ++ r.2
  ⟨r.1, packet, 12 + r.1.pos⟩

/-- The decoder's canvas export: for every pixel three canvas bytes then a
255 padding byte (`*rgb++ = *pData++;` three times, `*rgb++ = 255; pData++;`). -/
def exportFrame (width height : Nat) (pixels : List Nat) : List Nat :=
  ((List.range (width * height)).map fun p =>
    [pixels.getD (p * 4) 0, pixels.getD (p * 4 + 1) 0, pixels.getD (p * 4 + 2) 0, 255]).flatten

/-- Result of one `splash_decode` call: final context state, the exported
frame bytes, `got_frame`, and the return value (the packet size). -/
structure DecodeResult where
  state : SplashState
  frame : List Nat
  gotFrame : Bool
  ret : Nat
deriving Repr, DecidableEq

/-- `splash_decode`: read `hdrLength` and the radius byte from the header
(without any validation, as in the source), load the rulers, run the engine
loop while `ctx->pos < ctx->size`, and export the canvas. -/
def splash_decode (width height : Nat) (pixels0 : List Nat)
    (pkt : List Nat) : DecodeResult :=
  let hdrLength := byteAt pkt 0 + byteAt pkt 1 * 256 + byteAt pkt 2 * 65536
  let radius := byteAt pkt 10
  let data := pkt.drop hdrLength
  let size := pkt.length - 12
  let xe := readErrs data 0 width
  let ye := readErrs data (3 * width) height
  let s0 : SplashState := ⟨xe, ye, pixels0, 3 * (width + height), 0⟩
  let s1 := decodeLoop width height radius size data (width + height + 1) s0
  ⟨s1, exportFrame width height s1.pixels, true, pkt.length⟩

/-- Number of nonzero entries of a ruler (the engine's termination measure:
every iteration returning 1 zeroes the pivot entry and keeps every other
zero/nonzero status). -/
def rulerCard (l : List Nat) : Nat :=
  ((Finset.range l.length).filter fun ii => l.getD ii 0 ≠ 0).card

/-- Termination measure of the driver loops. -/
def stateMeasure (s : SplashState) : Nat :=
  rulerCard s.xErr + rulerCard s.yErr

/-! ## Basic `List.getD` toolkit -/

theorem getD_set_self {l : List Nat} {k : Nat} (h : k < l.length) (v : Nat) :
    (l.set k v).getD k 0 = v := by
  rw [List.getD_eq_getElem?_getD, List.getElem?_set_self h]
  rfl

theorem getD_set_ne {l : List Nat} {k t : Nat} (h : k ≠ t) (v : Nat) :
    (l.set k v).getD t 0 = l.getD t 0 := by
  rw [List.getD_eq_getElem?_getD, List.getElem?_set_ne h, ← List.getD_eq_getElem?_getD]

theorem getD_map_range {f : Nat → Nat} {n i : Nat} (h : i < n) :
    ((List.range n).map f).getD i 0 = f i := by
  rw [List.getD_eq_getElem?_getD, List.getElem?_map, List.getElem?_range h]
  rfl

theorem getD_eq_zero_of_le {l : List Nat} {i : Nat} (h : l.length ≤ i) :
    l.getD i 0 = 0 := by
  rw [List.getD_eq_getElem?_getD, List.getElem?_eq_none h]
  rfl

theorem getD_lt_length {l : List Nat} {i : Nat} (h : l.getD i 0 ≠ 0) :
    i < l.length := by
  by_contra hc
  exact h (getD_eq_zero_of_le (Nat.le_of_not_lt hc))

/-! ## `cround` (C `round`) -/

theorem cround_of_nonneg {q : ℚ} (h : 0 ≤ q) : cround q = ⌊q + 1/2⌋ :=
  if_pos h

theorem cround_zero : cround 0 = 0 := by
  rw [cround_of_nonneg le_rfl]
  norm_num

theorem cround_nonneg {q : ℚ} (h : 0 ≤ q) : 0 ≤ cround q := by
  rw [cround_of_nonneg h]
  rw [Int.floor_nonneg]
  linarith

theorem cround_le_int {q : ℚ} {n : ℤ} (hq : 0 ≤ q) (h : q ≤ (n : ℚ)) :
    cround q ≤ n := by
  rw [cround_of_nonneg hq]
  have h1 : (⌊q + 1/2⌋ : ℤ) ≤ ⌊(1/2 : ℚ) + (n : ℚ)⌋ := by
    apply Int.floor_le_floor
    linarith
  rw [Int.floor_add_int] at h1
  have h2 : (⌊(1/2 : ℚ)⌋ : ℤ) = 0 := by norm_num
  omega

/-! ## `splatAlpha`, `blend8`, `store8` -/

/-- `natRound x y` is exactly the C `round(x/y)` on nonnegative operands,
evaluated over the exact rationals. -/
theorem natRound_eq_cround (x y : Nat) :
    natRound x y = (cround ((x : ℚ) / y)).toNat := by
  rcases Nat.eq_zero_or_pos y with hy | hy
  · subst hy
    have h1 : ((x : ℚ) / (0 : ℕ)) = 0 := by
      push_cast
      simp
    rw [h1, cround_zero]
    unfold natRound
    simp
  · have hy' : (0 : ℚ) < (y : ℚ) := by exact_mod_cast hy
    rw [cround_of_nonneg (by positivity)]
    have h1 : (x : ℚ) / y + 1/2 = ((2 * x + y : ℕ) : ℚ) / ((2 * y : ℕ) : ℚ) := by
      push_cast
      field_simp
      ring
    rw [h1, Rat.floor_natCast_div_natCast]
    unfold natRound
    rw [← Int.natCast_div, Int.toNat_natCast]

/-- The blend weight is exactly `256 - round(256 * xyerr)` with
`xyerr = (xE/maxError + yE/maxError) / 2` over the exact rationals. -/
theorem splatAlpha_eq_cround (xE yE m : Nat) :
    splatAlpha xE yE m =
      256 - cround (256 * (((xE : ℚ) / m + (yE : ℚ) / m) / 2)) := by
  unfold splatAlpha
  rw [natRound_eq_cround]
  rcases Nat.eq_zero_or_pos m with hm | hm
  · subst hm
    have h1 : ((128 * (xE + yE) : ℕ) : ℚ) / ((0 : ℕ) : ℚ) = 0 := by
      push_cast
      simp
    have h2 : (256 : ℚ) * (((xE : ℚ) / (0 : ℕ) + (yE : ℚ) / (0 : ℕ)) / 2) = 0 := by
      push_cast
      simp
    rw [h1, h2]
    simp [cround_zero]
  · have hm' : (0 : ℚ) < (m : ℚ) := by exact_mod_cast hm
    have h1 : ((128 * (xE + yE) : ℕ) : ℚ) / (m : ℚ) =
        256 * (((xE : ℚ) / m + (yE : ℚ) / m) / 2) := by
      push_cast
      field_simp
      ring
    rw [h1]
    have h2 := @cround_nonneg (256 * (((xE : ℚ) / m + (yE : ℚ) / m) / 2)) (by positivity)
    omega

/-- `round(width*height / pp)` computed from the rational parameter's
numerator and denominator, as the encoder's `maxPixels` does. -/
theorem rndDivPP_eq_cround (width height : Nat) (pp : ℚ) (hpp : 1 ≤ pp) :
    natRound (width * height * pp.den) pp.num.toNat =
      (cround ((width * height : ℚ) / pp)).toNat := by
  rw [natRound_eq_cround]
  have hnum : (0 : ℤ) < pp.num := by
    rw [Rat.num_pos]
    linarith
  have hnum0 : ((pp.num : ℚ)) ≠ 0 := by
    exact_mod_cast ne_of_gt hnum
  have hpp0 : pp ≠ 0 := by
    intro hc
    rw [hc] at hpp
    norm_num at hpp
  have hnumq : ((pp.num.toNat : ℕ) : ℚ) = (pp.num : ℚ) := by
    exact_mod_cast Int.toNat_of_nonneg (le_of_lt hnum)
  have h1 : ((width * height * pp.den : ℕ) : ℚ) / ((pp.num.toNat : ℕ) : ℚ) =
      (width * height : ℚ) / pp := by
    rw [hnumq, div_eq_div_iff hnum0 hpp0]
    have hmul := Rat.mul_den_eq_num pp
    push_cast
    linear_combination ((width : ℚ) * height) * hmul
  rw [h1]

theorem splatAlpha_nonneg {xE yE m : Nat} (hx : xE ≤ m) (hy : yE ≤ m) :
    0 ≤ splatAlpha xE yE m := by
  unfold splatAlpha
  have hq : natRound (128 * (xE + yE)) m ≤ 256 := by
    unfold natRound
    rcases Nat.eq_zero_or_pos m with hm | hm
    · subst hm
      simp
    · rw [Nat.div_le_iff_le_mul_add_pred (by omega)]
      have h1 : 128 * (xE + yE) ≤ 128 * (2 * m) := by
        apply Nat.mul_le_mul_left
        omega
      omega
  omega

theorem splatAlpha_le_256 (xE yE m : Nat) : splatAlpha xE yE m ≤ 256 := by
  unfold splatAlpha
  have : (0 : ℤ) ≤ (natRound (128 * (xE + yE)) m : ℤ) := Int.ofNat_nonneg _
  omega

theorem splatAlpha_zero_zero (m : Nat) : splatAlpha 0 0 m = 256 := by
  unfold splatAlpha
  have h : natRound (128 * (0 + 0)) m = 0 := by
    unfold natRound
    rcases Nat.eq_zero_or_pos m with hm | hm
    · subst hm
      simp
    · apply Nat.div_eq_of_lt
      omega
  rw [h]
  rfl

theorem blend8_nonneg {src old : Nat} {a : ℤ} (h0 : 0 ≤ a) (h1 : a ≤ 256) :
    0 ≤ blend8 src old a := by
  unfold blend8
  apply Int.fdiv_nonneg _ (by norm_num)
  have : (0 : ℤ) ≤ (src : ℤ) * a := by positivity
  nlinarith [Int.ofNat_nonneg old]

theorem blend8_le_255 {src old : Nat} {a : ℤ} (hs : src < 256) (ho : old < 256)
    (h0 : 0 ≤ a) (h1 : a ≤ 256) : blend8 src old a ≤ 255 := by
  unfold blend8
  rw [Int.fdiv_eq_ediv _ (by norm_num)]
  have hnum : (src : ℤ) * a + (old : ℤ) * (256 - a) ≤ 255 * 256 := by
    have hs' : (src : ℤ) ≤ 255 := by exact_mod_cast Nat.lt_succ_iff.mp hs
    have ho' : (old : ℤ) ≤ 255 := by exact_mod_cast Nat.lt_succ_iff.mp ho
    nlinarith
  calc ((src : ℤ) * a + (old : ℤ) * (256 - a)) / 256
      ≤ (255 * 256 : ℤ) / 256 := Int.ediv_le_ediv (by norm_num) hnum
    _ = 255 := by decide

theorem blend8_alpha_full (src old : Nat) : blend8 src old 256 = src := by
  unfold blend8
  have : (src : ℤ) * 256 + (old : ℤ) * (256 - 256) = (src : ℤ) * 256 := by ring
  rw [this, Int.mul_fdiv_cancel _ (by norm_num)]

theorem store8_lt (v : ℤ) : store8 v < 256 := by
  unfold store8
  have he : Int.emod v 256 = v % 256 := rfl
  rw [he]
  have h1 := @Int.emod_lt_of_pos v 256 (by norm_num)
  omega

theorem store8_of_range {v : ℤ} (h0 : 0 ≤ v) (h1 : v < 256) :
    store8 v = v.toNat := by
  unfold store8
  have he : Int.emod v 256 = v % 256 := rfl
  rw [he, Int.emod_eq_of_lt h0 h1]

theorem store8_coe {v : Nat} (h : v < 256) : store8 (v : ℤ) = v := by
  rw [store8_of_range (by positivity) (by exact_mod_cast h)]
  exact Int.toNat_natCast v

/-! ## `worstFrom` / `worstOf` -/

theorem worstFrom_spec (l : List Nat) :
    ∀ (steps v idx i : Nat), idx < i → l.getD idx 0 = v →
    (∀ k, k < i → l.getD k 0 ≤ v) → (∀ k, k < idx → l.getD k 0 < v) →
    (worstFrom l v idx i steps).2 < i + steps ∧
    l.getD (worstFrom l v idx i steps).2 0 = (worstFrom l v idx i steps).1 ∧
    (∀ k, k < i + steps → l.getD k 0 ≤ (worstFrom l v idx i steps).1) ∧
    (∀ k, k < (worstFrom l v idx i steps).2 → l.getD k 0 < (worstFrom l v idx i steps).1) := by
  intro steps
  induction steps with
  | zero =>
    intro v idx i hidx hval hmax hstrict
    simp only [worstFrom]
    exact ⟨by omega, hval, fun k hk => hmax k (by omega), hstrict⟩
  | succ n ih =>
    intro v idx i hidx hval hmax hstrict
    simp only [worstFrom]
    by_cases hgt : l.getD i 0 > v
    · rw [if_pos hgt]
      have h := ih (l.getD i 0) i (i + 1) (by omega) rfl
        (fun k hk => by
          rcases Nat.lt_or_ge k i with h1 | h1
          · exact le_of_lt (lt_of_le_of_lt (hmax k h1) hgt)
          · have : k = i := by omega
            subst this
            exact le_rfl)
        (fun k hk => lt_of_le_of_lt (hmax k hk) hgt)
      refine ⟨by omega, h.2.1, fun k hk => h.2.2.1 k (by omega), h.2.2.2⟩
    · rw [if_neg hgt]
      have h := ih v idx (i + 1) (by omega) hval
        (fun k hk => by
          rcases Nat.lt_or_ge k i with h1 | h1
          · exact hmax k h1
          · have : k = i := by omega
            subst this
            omega)
        hstrict
      exact ⟨by omega, h.2.1, fun k hk => h.2.2.1 k (by omega), h.2.2.2⟩

theorem worstOf_spec (l : List Nat) (n : Nat) (hn : 0 < n) :
    (worstOf l n).2 < n ∧
    l.getD (worstOf l n).2 0 = (worstOf l n).1 ∧
    (∀ k, k < n → l.getD k 0 ≤ (worstOf l n).1) ∧
    (∀ k, k < (worstOf l n).2 → l.getD k 0 < (worstOf l n).1) := by
  have h := worstFrom_spec l (n - 1) (l.getD 0 0) 0 1 (by omega) rfl
    (fun k hk => by
      have : k = 0 := by omega
      subst this
      exact le_rfl)
    (fun k hk => by omega)
  have hn1 : 1 + (n - 1) = n := by omega
  rw [hn1] at h
  exact h

theorem worstOf_zero_iff (l : List Nat) (n : Nat) (hn : 0 < n) :
    (worstOf l n).1 = 0 ↔ ∀ k, k < n → l.getD k 0 = 0 := by
  obtain ⟨h1, h2, h3, h4⟩ := worstOf_spec l n hn
  constructor
  · intro h k hk
    have := h3 k hk
    omega
  · intro h
    rw [← h2]
    exact h _ h1

/-! ## Range expansion -/

theorem expandLo_le (err : List Nat) : ∀ (fuel lo : Nat), expandLo err lo fuel ≤ lo := by
  intro fuel
  induction fuel with
  | zero => intro lo; simp [expandLo]
  | succ n ih =>
    intro lo
    simp only [expandLo]
    split
    · exact le_rfl
    · exact le_trans (ih (lo - 1)) (by omega)

theorem expandLo_ge (err : List Nat) : ∀ (fuel lo : Nat), lo - fuel ≤ expandLo err lo fuel := by
  intro fuel
  induction fuel with
  | zero => intro lo; simp [expandLo]
  | succ n ih =>
    intro lo
    simp only [expandLo]
    split
    · omega
    · have := ih (lo - 1)
      omega

theorem expandLo_nonzero (err : List Nat) :
    ∀ (fuel lo x : Nat), expandLo err lo fuel ≤ x → x < lo → err.getD x 0 ≠ 0 := by
  intro fuel
  induction fuel with
  | zero =>
    intro lo x h1 h2
    simp only [expandLo] at h1
    omega
  | succ n ih =>
    intro lo x h1 h2
    simp only [expandLo] at h1
    by_cases hc : lo = 0 ∨ err.getD (lo - 1) 0 = 0
    · rw [if_pos hc] at h1
      omega
    · rw [if_neg hc] at h1
      push_neg at hc
      rcases Nat.lt_or_ge x (lo - 1) with h3 | h3
      · exact ih (lo - 1) x h1 h3
      · have : x = lo - 1 := by omega
        subst this
        exact hc.2

theorem expandHi_ge (err : List Nat) (bound : Nat) :
    ∀ (fuel hi : Nat), hi ≤ expandHi err bound hi fuel := by
  intro fuel
  induction fuel with
  | zero => intro hi; simp [expandHi]
  | succ n ih =>
    intro hi
    simp only [expandHi]
    split
    · exact le_rfl
    · exact le_trans (by omega) (ih (hi + 1))

theorem expandHi_le (err : List Nat) (bound : Nat) :
    ∀ (fuel hi : Nat), expandHi err bound hi fuel ≤ hi + fuel := by
  intro fuel
  induction fuel with
  | zero => intro hi; simp [expandHi]
  | succ n ih =>
    intro hi
    simp only [expandHi]
    split
    · omega
    · have := ih (hi + 1)
      omega

theorem expandHi_lt_bound (err : List Nat) (bound : Nat) :
    ∀ (fuel hi : Nat), hi < bound → expandHi err bound hi fuel < bound := by
  intro fuel
  induction fuel with
  | zero => intro hi h; simpa [expandHi] using h
  | succ n ih =>
    intro hi h
    simp only [expandHi]
    by_cases hc : bound - 1 ≤ hi ∨ err.getD (hi + 1) 0 = 0
    · rw [if_pos hc]
      exact h
    · rw [if_neg hc]
      push_neg at hc
      exact ih (hi + 1) (by omega)

theorem expandHi_nonzero (err : List Nat) (bound : Nat) :
    ∀ (fuel hi x : Nat), hi < x → x ≤ expandHi err bound hi fuel → err.getD x 0 ≠ 0 := by
  intro fuel
  induction fuel with
  | zero =>
    intro hi x h1 h2
    simp only [expandHi] at h2
    omega
  | succ n ih =>
    intro hi x h1 h2
    simp only [expandHi] at h2
    by_cases hc : bound - 1 ≤ hi ∨ err.getD (hi + 1) 0 = 0
    · rw [if_pos hc] at h2
      omega
    · rw [if_neg hc] at h2
      push_neg at hc
      rcases Nat.lt_or_ge (hi + 1) x with h3 | h3
      · exact ih (hi + 1) x h3 h2
      · have : x = hi + 1 := by omega
        subst this
        exact hc.2

/-! ## `rebalance` pointwise facts -/

theorem rebalance_length (err : List Nat) (p lo hi radius : Nat) :
    (rebalance err p lo hi radius).length = err.length := by
  unfold rebalance
  simp

theorem rebalance_getD (err : List Nat) (p lo hi radius : Nat) {ii : Nat}
    (h : ii < err.length) :
    (rebalance err p lo hi radius).getD ii 0 =
      if lo ≤ ii ∧ ii ≤ hi then
        if ii = p then 0
        else
          let v : Nat := natRound (err.getD ii 0 * Nat.dist ii p) radius
          if v = 0 then 1 else v
      else err.getD ii 0 := by
  unfold rebalance
  exact getD_map_range h

theorem rebalance_getD_oob (err : List Nat) (p lo hi radius : Nat) {ii : Nat}
    (h : err.length ≤ ii) :
    (rebalance err p lo hi radius).getD ii 0 = 0 := by
  apply getD_eq_zero_of_le
  rw [rebalance_length]
  exact h

theorem rebalance_pivot (err : List Nat) (p lo hi radius : Nat)
    (hlo : lo ≤ p) (hhi : p ≤ hi) :
    (rebalance err p lo hi radius).getD p 0 = 0 := by
  rcases Nat.lt_or_ge p err.length with h | h
  · rw [rebalance_getD err p lo hi radius h, if_pos ⟨hlo, hhi⟩, if_pos rfl]
  · exact rebalance_getD_oob err p lo hi radius h

theorem natRound_le (e d radius : Nat) (hd : d ≤ radius) :
    natRound (e * d) radius ≤ e := by
  unfold natRound
  rcases Nat.eq_zero_or_pos radius with hr | hr
  · subst hr
    simp
  · rw [Nat.div_le_iff_le_mul_add_pred (by omega)]
    have h1 : e * d ≤ e * radius := Nat.mul_le_mul_left e hd
    have h2 : 2 * radius * e = 2 * (e * radius) := by ring
    omega

theorem rebalance_zero_stays (err : List Nat) (p lo hi radius : Nat)
    (hnz : ∀ ii, lo ≤ ii → ii ≤ hi → ii ≠ p → err.getD ii 0 ≠ 0) :
    ∀ ii, err.getD ii 0 = 0 → (rebalance err p lo hi radius).getD ii 0 = 0 := by
  intro ii h0
  rcases Nat.lt_or_ge ii err.length with h | h
  · rw [rebalance_getD err p lo hi radius h]
    by_cases hr : lo ≤ ii ∧ ii ≤ hi
    · rw [if_pos hr]
      by_cases hp : ii = p
      · rw [if_pos hp]
      · exact absurd h0 (hnz ii hr.1 hr.2 hp)
    · rw [if_neg hr]
      exact h0
  · exact rebalance_getD_oob err p lo hi radius h

theorem rebalance_mono (err : List Nat) (p lo hi radius : Nat)
    (hrad : ∀ ii, lo ≤ ii → ii ≤ hi → Nat.dist ii p ≤ radius)
    (hnz : ∀ ii, lo ≤ ii → ii ≤ hi → ii ≠ p → err.getD ii 0 ≠ 0) :
    ∀ ii, (rebalance err p lo hi radius).getD ii 0 ≤ err.getD ii 0 := by
  intro ii
  rcases Nat.lt_or_ge ii err.length with h | h
  · rw [rebalance_getD err p lo hi radius h]
    by_cases hr : lo ≤ ii ∧ ii ≤ hi
    · rw [if_pos hr]
      by_cases hp : ii = p
      · rw [if_pos hp]
        omega
      · rw [if_neg hp]
        have hv := natRound_le (err.getD ii 0) (Nat.dist ii p) radius
          (hrad ii hr.1 hr.2)
        have he1 : 1 ≤ err.getD ii 0 := Nat.one_le_iff_ne_zero.mpr (hnz ii hr.1 hr.2 hp)
        dsimp only
        split <;> omega
    · rw [if_neg hr]
  · rw [rebalance_getD_oob err p lo hi radius h]
    omega

theorem rebalance_nonzero_stays (err : List Nat) (p lo hi radius : Nat)
    {ii : Nat} (hlo : lo ≤ ii) (hhi : ii ≤ hi) (hp : ii ≠ p)
    (h : err.getD ii 0 ≠ 0) :
    (rebalance err p lo hi radius).getD ii 0 ≠ 0 := by
  have hlt : ii < err.length := getD_lt_length h
  rw [rebalance_getD err p lo hi radius hlt, if_pos ⟨hlo, hhi⟩, if_neg hp]
  dsimp only
  split <;> omega

theorem rebalance_le_max (err : List Nat) (p lo hi radius : Nat) {m : Nat}
    (hrad : ∀ ii, lo ≤ ii → ii ≤ hi → Nat.dist ii p ≤ radius)
    (hm : 1 ≤ m) (hmax : ∀ ii, err.getD ii 0 ≤ m) :
    ∀ ii, (rebalance err p lo hi radius).getD ii 0 ≤ m := by
  intro ii
  rcases Nat.lt_or_ge ii err.length with h | h
  · rw [rebalance_getD err p lo hi radius h]
    by_cases hr : lo ≤ ii ∧ ii ≤ hi
    · rw [if_pos hr]
      by_cases hp : ii = p
      · rw [if_pos hp]
        omega
      · rw [if_neg hp]
        have hv := natRound_le (err.getD ii 0) (Nat.dist ii p) radius
          (hrad ii hr.1 hr.2)
        have := hmax ii
        dsimp only
        split <;> omega
    · rw [if_neg hr]
      exact hmax ii
  · rw [rebalance_getD_oob err p lo hi radius h]
    omega

/-! ## The termination measure -/

theorem rulerCard_le_length (l : List Nat) : rulerCard l ≤ l.length := by
  unfold rulerCard
  calc ((Finset.range l.length).filter fun ii => l.getD ii 0 ≠ 0).card
      ≤ (Finset.range l.length).card := Finset.card_filter_le _ _
    _ = l.length := Finset.card_range _

theorem rulerCard_rebalance_lt (err : List Nat) (p lo hi radius : Nat)
    (hlo : lo ≤ p) (hhi : p ≤ hi)
    (hnz : ∀ ii, lo ≤ ii → ii ≤ hi → ii ≠ p → err.getD ii 0 ≠ 0)
    (hpnz : err.getD p 0 ≠ 0) :
    rulerCard (rebalance err p lo hi radius) < rulerCard err := by
  have hplen : p < err.length := getD_lt_length hpnz
  unfold rulerCard
  rw [rebalance_length]
  apply Finset.card_lt_card
  constructor
  · intro ii hii
    rw [Finset.mem_filter] at hii ⊢
    refine ⟨hii.1, ?_⟩
    intro h0
    exact hii.2 (rebalance_zero_stays err p lo hi radius hnz ii h0)
  · intro hsub
    have hp1 : p ∈ (Finset.range err.length).filter fun ii => err.getD ii 0 ≠ 0 := by
      rw [Finset.mem_filter]
      exact ⟨Finset.mem_range.mpr hplen, hpnz⟩
    have hp2 := hsub hp1
    rw [Finset.mem_filter] at hp2
    exact hp2.2 (rebalance_pivot err p lo hi radius hlo hhi)

/-! ## `updateLines` branch equations -/

theorem worstFrom_getD_self (l : List Nat) :
    ∀ (steps v idx i : Nat), l.getD idx 0 = v →
    l.getD (worstFrom l v idx i steps).2 0 = (worstFrom l v idx i steps).1 := by
  intro steps
  induction steps with
  | zero => intro v idx i h; simpa [worstFrom] using h
  | succ n ih =>
    intro v idx i h
    simp only [worstFrom]
    by_cases hgt : l.getD i 0 > v
    · rw [if_pos hgt]
      exact ih (l.getD i 0) i (i + 1) rfl
    · rw [if_neg hgt]
      exact ih v idx (i + 1) h

theorem worstOf_getD_self (l : List Nat) (n : Nat) :
    l.getD (worstOf l n).2 0 = (worstOf l n).1 :=
  worstFrom_getD_self l (n - 1) (l.getD 0 0) 0 1 rfl

theorem updateLines_of_allzero {width height radius : Nat} {b : Bool}
    {pic : Nat → Nat → Nat × Nat × Nat} {data : List Nat} {s : SplashState}
    (h : (worstOf s.xErr width).1 + (worstOf s.yErr height).1 = 0) :
    updateLines width height radius b pic data s = (false, s, []) := by
  unfold updateLines
  rw [if_pos h]

theorem updateLines_of_col {width height radius : Nat} {b : Bool}
    {pic : Nat → Nat → Nat × Nat × Nat} {data : List Nat} {s : SplashState}
    (h0 : ¬ (worstOf s.xErr width).1 + (worstOf s.yErr height).1 = 0)
    (h1 : (worstOf s.xErr width).1 > (worstOf s.yErr height).1) :
    updateLines width height radius b pic data s =
      (let i := (worstOf s.xErr width).2
       let minI := expandLo s.xErr i (radius - 1)
       let maxI := expandHi s.xErr width i (radius - 1)
       let maxError := s.xErr.getD i 0
       let xErr2 := rebalance s.xErr i minI maxI radius
       let r := scanCM b pic data height radius width maxError
                  xErr2 s.yErr i minI maxI (List.range height)
                  ⟨s.pixels, s.pos, s.numPixels⟩
       (true, ⟨xErr2, s.yErr, r.1.pixels, r.1.pos, r.1.numPixels⟩, r.2)) := by
  unfold updateLines
  rw [if_neg h0, if_pos h1]

theorem updateLines_of_row {width height radius : Nat} {b : Bool}
    {pic : Nat → Nat → Nat × Nat × Nat} {data : List Nat} {s : SplashState}
    (h0 : ¬ (worstOf s.xErr width).1 + (worstOf s.yErr height).1 = 0)
    (h1 : ¬ (worstOf s.xErr width).1 > (worstOf s.yErr height).1) :
    updateLines width height radius b pic data s =
      (let j := (worstOf s.yErr height).2
       let minJ := expandLo s.yErr j (radius - 1)
       let maxJ := expandHi s.yErr height j (radius - 1)
       let maxError := s.yErr.getD j 0
       let yErr2 := rebalance s.yErr j minJ maxJ radius
       let r := scanRM b pic data width radius maxError
                  s.xErr yErr2 j minJ maxJ (List.range width)
                  ⟨s.pixels, s.pos, s.numPixels⟩
       (true, ⟨s.xErr, yErr2, r.1.pixels, r.1.pos, r.1.numPixels⟩, r.2)) := by
  unfold updateLines
  rw [if_neg h0, if_neg h1]

theorem updateLines_done_iff {width height radius : Nat} {b : Bool}
    {pic : Nat → Nat → Nat × Nat × Nat} {data : List Nat} {s : SplashState} :
    (updateLines width height radius b pic data s).1 = false ↔
    (worstOf s.xErr width).1 + (worstOf s.yErr height).1 = 0 := by
  constructor
  · intro h
    by_contra hz
    by_cases h1 : (worstOf s.xErr width).1 > (worstOf s.yErr height).1
    · rw [updateLines_of_col hz h1] at h
      simp at h
    · rw [updateLines_of_row hz h1] at h
      simp at h
  · intro h
    rw [updateLines_of_allzero h]

/-- The nonzero-in-range fact for the column pivot: every entry of the
pivot influence range, other than the pivot itself, is nonzero. -/
theorem col_range_nonzero {s : SplashState} (width radius : Nat) :
    ∀ ii, expandLo s.xErr (worstOf s.xErr width).2 (radius - 1) ≤ ii →
      ii ≤ expandHi s.xErr width (worstOf s.xErr width).2 (radius - 1) →
      ii ≠ (worstOf s.xErr width).2 → s.xErr.getD ii 0 ≠ 0 := by
  intro ii hlo hhi hne
  rcases Nat.lt_trichotomy ii (worstOf s.xErr width).2 with h | h | h
  · exact expandLo_nonzero s.xErr (radius - 1) _ ii hlo h
  · exact absurd h hne
  · exact expandHi_nonzero s.xErr width (radius - 1) _ ii h hhi

/-- The nonzero-in-range fact for the row pivot. -/
theorem row_range_nonzero {s : SplashState} (height radius : Nat) :
    ∀ jj, expandLo s.yErr (worstOf s.yErr height).2 (radius - 1) ≤ jj →
      jj ≤ expandHi s.yErr height (worstOf s.yErr height).2 (radius - 1) →
      jj ≠ (worstOf s.yErr height).2 → s.yErr.getD jj 0 ≠ 0 := by
  intro jj hlo hhi hne
  rcases Nat.lt_trichotomy jj (worstOf s.yErr height).2 with h | h | h
  · exact expandLo_nonzero s.yErr (radius - 1) _ jj hlo h
  · exact absurd h hne
  · exact expandHi_nonzero s.yErr height (radius - 1) _ jj h hhi

theorem updateLines_measure_lt {width height radius : Nat} {b : Bool}
    {pic : Nat → Nat → Nat × Nat × Nat} {data : List Nat} {s : SplashState}
    (h : (updateLines width height radius b pic data s).1 = true) :
    stateMeasure (updateLines width height radius b pic data s).2.1 < stateMeasure s := by
  by_cases hz : (worstOf s.xErr width).1 + (worstOf s.yErr height).1 = 0
  · rw [updateLines_of_allzero hz] at h
    simp at h
  by_cases h1 : (worstOf s.xErr width).1 > (worstOf s.yErr height).1
  · rw [updateLines_of_col hz h1]
    have hpnz : s.xErr.getD (worstOf s.xErr width).2 0 ≠ 0 := by
      rw [worstOf_getD_self]
      omega
    unfold stateMeasure
    dsimp only
    have := rulerCard_rebalance_lt s.xErr (worstOf s.xErr width).2
      (expandLo s.xErr (worstOf s.xErr width).2 (radius - 1))
      (expandHi s.xErr width (worstOf s.xErr width).2 (radius - 1)) radius
      (expandLo_le s.xErr (radius - 1) _)
      (expandHi_ge s.xErr width (radius - 1) _)
      (col_range_nonzero width radius) hpnz
    omega
  · rw [updateLines_of_row hz h1]
    have hpnz : s.yErr.getD (worstOf s.yErr height).2 0 ≠ 0 := by
      rw [worstOf_getD_self]
      omega
    unfold stateMeasure
    dsimp only
    have := rulerCard_rebalance_lt s.yErr (worstOf s.yErr height).2
      (expandLo s.yErr (worstOf s.yErr height).2 (radius - 1))
      (expandHi s.yErr height (worstOf s.yErr height).2 (radius - 1)) radius
      (expandLo_le s.yErr (radius - 1) _)
      (expandHi_ge s.yErr height (radius - 1) _)
      (row_range_nonzero height radius) hpnz
    omega

/-! ## Fuel sufficiency of the driver loops -/

theorem encodeLoop_fuel_stable (width height radius maxPixels : Nat)
    (pic : Nat → Nat → Nat × Nat × Nat) :
    ∀ f g s, stateMeasure s < f → stateMeasure s < g →
    encodeLoop width height radius maxPixels pic f s =
    encodeLoop width height radius maxPixels pic g s := by
  intro f
  induction f with
  | zero => intro g s hf; omega
  | succ n ih =>
    intro g s hf hg
    match g, hg with
    | g' + 1, hg =>
      simp only [encodeLoop]
      by_cases hdone : (updateLines width height radius true pic [] s).1 = false
      · simp only [if_pos hdone]
      · rw [if_neg hdone, if_neg hdone]
        have hlt := updateLines_measure_lt (by
          cases hd : (updateLines width height radius true pic [] s).1
          · exact absurd hd hdone
          · rfl)
        by_cases hnp : (updateLines width height radius true pic [] s).2.1.numPixels < maxPixels
        · rw [if_pos hnp, if_pos hnp, ih g' _ (by omega) (by omega)]
        · rw [if_neg hnp, if_neg hnp]

theorem decodeLoop_fuel_stable (width height radius size : Nat) (data : List Nat) :
    ∀ f g s, stateMeasure s < f → stateMeasure s < g →
    decodeLoop width height radius size data f s =
    decodeLoop width height radius size data g s := by
  intro f
  induction f with
  | zero => intro g s hf; omega
  | succ n ih =>
    intro g s hf hg
    match g, hg with
    | g' + 1, hg =>
      simp only [decodeLoop]
      by_cases hdone : (updateLines width height radius false (fun _ _ => (0, 0, 0)) data s).1 = false
      · simp only [if_pos hdone]
      · rw [if_neg hdone, if_neg hdone]
        have hlt := updateLines_measure_lt (by
          cases hd : (updateLines width height radius false (fun _ _ => (0, 0, 0)) data s).1
          · exact absurd hd hdone
          · rfl)
        by_cases hps : (updateLines width height radius false (fun _ _ => (0, 0, 0)) data s).2.1.pos < size
        · rw [if_pos hps, if_pos hps, ih g' _ (by omega) (by omega)]
        · rw [if_neg hps, if_neg hps]

theorem stateMeasure_le (s : SplashState) :
    stateMeasure s ≤ s.xErr.length + s.yErr.length := by
  unfold stateMeasure
  have := rulerCard_le_length s.xErr
  have := rulerCard_le_length s.yErr
  omega

/-! ## Canvas byte toolkit -/

theorem getD_set_cases (l : List Nat) (k v t : Nat) :
    (l.set k v).getD t 0 = if k = t ∧ k < l.length then v else l.getD t 0 := by
  rw [List.getD_eq_getElem?_getD, List.getElem?_set]
  by_cases h : k = t
  · subst h
    by_cases hl : k < l.length
    · rw [if_pos rfl, if_pos hl, if_pos ⟨rfl, hl⟩]
      rfl
    · rw [if_pos rfl, if_neg hl, if_neg (by tauto)]
      rw [List.getD_eq_getElem?_getD, List.getElem?_eq_none (by omega)]
  · rw [if_neg h, if_neg (by tauto), ← List.getD_eq_getElem?_getD]

theorem foldl_preserve {α : Type} (f : List Nat → α → List Nat) (P : List Nat → Prop) :
    ∀ (l : List α) (px : List Nat), P px →
    (∀ px2 a, a ∈ l → P px2 → P (f px2 a)) → P (List.foldl f px l) := by
  intro l
  induction l with
  | nil => intro px h _; exact h
  | cons a l ih =>
    intro px h hstep
    rw [List.foldl_cons]
    exact ih (f px a) (hstep px a (List.mem_cons_self a l) h)
      (fun px2 a2 ha2 hp => hstep px2 a2 (List.mem_cons_of_mem a ha2) hp)

theorem splatPixel_getD_ne (width radius maxError : Nat) (xErr yErr : List Nat)
    (i j sR sG sB ii jj : Nat) (px : List Nat) {t : Nat}
    (h : ∀ c, c < 3 → t ≠ (jj * width + ii) * 4 + c) :
    (splatPixel width radius maxError xErr yErr i j sR sG sB ii jj px).getD t 0 =
    px.getD t 0 := by
  unfold splatPixel
  split
  · rw [getD_set_cases, if_neg (by
      intro hc
      exact h 2 (by omega) hc.1.symm)]
    rw [getD_set_cases, if_neg (by
      intro hc
      exact h 1 (by omega) hc.1.symm)]
    rw [getD_set_cases, if_neg (by
      intro hc
      exact h 0 (by omega) (by omega))]
  · rfl

theorem splatPixel_length (width radius maxError : Nat) (xErr yErr : List Nat)
    (i j sR sG sB ii jj : Nat) (px : List Nat) :
    (splatPixel width radius maxError xErr yErr i j sR sG sB ii jj px).length =
    px.length := by
  unfold splatPixel
  split <;> simp

theorem splatPixel_WF (width radius maxError : Nat) (xErr yErr : List Nat)
    (i j sR sG sB ii jj : Nat) (px : List Nat)
    (h : ∀ u, px.getD u 0 < 256) :
    ∀ u, (splatPixel width radius maxError xErr yErr i j sR sG sB ii jj px).getD u 0 < 256 := by
  intro u
  unfold splatPixel
  split
  · rw [getD_set_cases]
    split
    · exact store8_lt _
    · rw [getD_set_cases]
      split
      · exact store8_lt _
      · rw [getD_set_cases]
        split
        · exact store8_lt _
        · exact h u
  · exact h u

theorem splatRectCM_WF (width radius maxError : Nat) (xErr yErr : List Nat)
    (i j sR sG sB minI maxI minJ maxJ : Nat) (px : List Nat)
    (h : ∀ u, px.getD u 0 < 256) :
    ∀ u, (splatRectCM width radius maxError xErr yErr i j sR sG sB
      minI maxI minJ maxJ px).getD u 0 < 256 := by
  unfold splatRectCM
  apply foldl_preserve _ (fun q => ∀ u, q.getD u 0 < 256) _ px h
  intro px2 jj _ hp
  apply foldl_preserve _ (fun q => ∀ u, q.getD u 0 < 256) _ px2 hp
  intro px3 ii _ hp3
  exact splatPixel_WF width radius maxError xErr yErr i j sR sG sB ii jj px3 hp3

theorem splatRectRM_WF (width radius maxError : Nat) (xErr yErr : List Nat)
    (i j sR sG sB minI maxI minJ maxJ : Nat) (px : List Nat)
    (h : ∀ u, px.getD u 0 < 256) :
    ∀ u, (splatRectRM width radius maxError xErr yErr i j sR sG sB
      minI maxI minJ maxJ px).getD u 0 < 256 := by
  unfold splatRectRM
  apply foldl_preserve _ (fun q => ∀ u, q.getD u 0 < 256) _ px h
  intro px2 ii _ hp
  apply foldl_preserve _ (fun q => ∀ u, q.getD u 0 < 256) _ px2 hp
  intro px3 jj _ hp3
  exact splatPixel_WF width radius maxError xErr yErr i j sR sG sB ii jj px3 hp3

theorem pixel_byte_ne {width i ii j jj : Nat} (hi : i < width) (hii : ii < width)
    (hne : ¬(ii = i ∧ jj = j)) {c c2 : Nat} (hc : c < 4) (hc2 : c2 < 4) :
    (jj * width + ii) * 4 + c2 ≠ (j * width + i) * 4 + c := by
  have hpix : jj * width + ii ≠ j * width + i := by
    rcases Nat.lt_trichotomy jj j with h | h | h
    · have h1 : jj + 1 ≤ j := h
      have h2 : (jj + 1) * width ≤ j * width := Nat.mul_le_mul_right width h1
      have h3 : jj * width + ii < (jj + 1) * width := by
        rw [Nat.succ_mul]
        omega
      omega
    · subst h
      intro hc3
      exact hne ⟨by omega, rfl⟩
    · have h1 : j + 1 ≤ jj := h
      have h2 : (j + 1) * width ≤ jj * width := Nat.mul_le_mul_right width h1
      have h3 : j * width + i < (j + 1) * width := by
        rw [Nat.succ_mul]
        omega
      omega
  omega

/-! ## Scan structure: stream-position accounting, well-formedness -/

theorem scanCM_enc_pos (pic : Nat → Nat → Nat × Nat × Nat) (data : List Nat)
    (height radius width maxError : Nat) (xErr2 yErr : List Nat) (i minI maxI : Nat) :
    ∀ (js : List Nat) (st : ScanSt),
    (scanCM true pic data height radius width maxError xErr2 yErr i minI maxI js st).1.pos =
    st.pos +
      (scanCM true pic data height radius width maxError xErr2 yErr i minI maxI js st).2.length := by
  intro js
  induction js with
  | nil => intro st; simp [scanCM]
  | cons j js ih =>
    intro st
    simp only [scanCM]
    by_cases hz : yErr.getD j 0 = 0
    · rw [if_pos hz]
      dsimp only
      rw [List.length_append, ih]
      simp [processCrossCM]
      omega
    · rw [if_neg hz]
      exact ih st

theorem scanRM_enc_pos (pic : Nat → Nat → Nat × Nat × Nat) (data : List Nat)
    (width radius maxError : Nat) (xErr yErr2 : List Nat) (j minJ maxJ : Nat) :
    ∀ (is : List Nat) (st : ScanSt),
    (scanRM true pic data width radius maxError xErr yErr2 j minJ maxJ is st).1.pos =
    st.pos +
      (scanRM true pic data width radius maxError xErr yErr2 j minJ maxJ is st).2.length := by
  intro is
  induction is with
  | nil => intro st; simp [scanRM]
  | cons i is ih =>
    intro st
    simp only [scanRM]
    by_cases hz : xErr.getD i 0 = 0
    · rw [if_pos hz]
      dsimp only
      rw [List.length_append, ih]
      simp [processCrossRM]
      omega
    · rw [if_neg hz]
      exact ih st

theorem scanCM_out_nil (pic : Nat → Nat → Nat × Nat × Nat) (data : List Nat)
    (height radius width maxError : Nat) (xErr2 yErr : List Nat) (i minI maxI : Nat) :
    ∀ (js : List Nat) (st : ScanSt),
    (scanCM true pic data height radius width maxError xErr2 yErr i minI maxI js st).2 = [] →
    (scanCM true pic data height radius width maxError xErr2 yErr i minI maxI js st).1 = st := by
  intro js
  induction js with
  | nil => intro st _; simp [scanCM]
  | cons j js ih =>
    intro st h
    simp only [scanCM] at h ⊢
    by_cases hz : yErr.getD j 0 = 0
    · rw [if_pos hz] at h
      dsimp only at h
      have : (processCrossCM true pic data height radius width maxError
          xErr2 yErr i minI maxI j st).2 = [] := (List.append_eq_nil.mp h).1
      simp [processCrossCM] at this
    · rw [if_neg hz] at h ⊢
      exact ih st h

theorem scanRM_out_nil (pic : Nat → Nat → Nat × Nat × Nat) (data : List Nat)
    (width radius maxError : Nat) (xErr yErr2 : List Nat) (j minJ maxJ : Nat) :
    ∀ (is : List Nat) (st : ScanSt),
    (scanRM true pic data width radius maxError xErr yErr2 j minJ maxJ is st).2 = [] →
    (scanRM true pic data width radius maxError xErr yErr2 j minJ maxJ is st).1 = st := by
  intro is
  induction is with
  | nil => intro st _; simp [scanRM]
  | cons i is ih =>
    intro st h
    simp only [scanRM] at h ⊢
    by_cases hz : xErr.getD i 0 = 0
    · rw [if_pos hz] at h
      dsimp only at h
      have : (processCrossRM true pic data width radius maxError
          xErr yErr2 j minJ maxJ i st).2 = [] := (List.append_eq_nil.mp h).1
      simp [processCrossRM] at this
    · rw [if_neg hz] at h ⊢
      exact ih st h

theorem scanCM_out_lt (pic : Nat → Nat → Nat × Nat × Nat) (data : List Nat)
    (height radius width maxError : Nat) (xErr2 yErr : List Nat) (i minI maxI : Nat) :
    ∀ (js : List Nat) (st : ScanSt) (x : Nat),
    x ∈ (scanCM true pic data height radius width maxError xErr2 yErr i minI maxI js st).2 →
    x < 256 := by
  intro js
  induction js with
  | nil => intro st x h; simp [scanCM] at h
  | cons j js ih =>
    intro st x h
    simp only [scanCM] at h
    by_cases hz : yErr.getD j 0 = 0
    · rw [if_pos hz] at h
      dsimp only at h
      rw [List.mem_append] at h
      rcases h with h | h
      · simp [processCrossCM, readSample] at h
        rcases h with h | h | h <;> (subst h; exact Nat.mod_lt _ (by omega))
      · exact ih _ x h
    · rw [if_neg hz] at h
      exact ih st x h

theorem scanRM_out_lt (pic : Nat → Nat → Nat × Nat × Nat) (data : List Nat)
    (width radius maxError : Nat) (xErr yErr2 : List Nat) (j minJ maxJ : Nat) :
    ∀ (is : List Nat) (st : ScanSt) (x : Nat),
    x ∈ (scanRM true pic data width radius maxError xErr yErr2 j minJ maxJ is st).2 →
    x < 256 := by
  intro is
  induction is with
  | nil => intro st x h; simp [scanRM] at h
  | cons i is ih =>
    intro st x h
    simp only [scanRM] at h
    by_cases hz : xErr.getD i 0 = 0
    · rw [if_pos hz] at h
      dsimp only at h
      rw [List.mem_append] at h
      rcases h with h | h
      · simp [processCrossRM, readSample] at h
        rcases h with h | h | h <;> (subst h; exact Nat.mod_lt _ (by omega))
      · exact ih _ x h
    · rw [if_neg hz] at h
      exact ih st x h

theorem scanCM_WF (b : Bool) (pic : Nat → Nat → Nat × Nat × Nat) (data : List Nat)
    (height radius width maxError : Nat) (xErr2 yErr : List Nat) (i minI maxI : Nat) :
    ∀ (js : List Nat) (st : ScanSt), (∀ u, st.pixels.getD u 0 < 256) →
    ∀ u, (scanCM b pic data height radius width maxError
      xErr2 yErr i minI maxI js st).1.pixels.getD u 0 < 256 := by
  intro js
  induction js with
  | nil => intro st h u; simpa [scanCM] using h u
  | cons j js ih =>
    intro st h u
    simp only [scanCM]
    by_cases hz : yErr.getD j 0 = 0
    · rw [if_pos hz]
      dsimp only
      apply ih
      intro u2
      simp only [processCrossCM]
      exact splatRectCM_WF _ _ _ _ _ _ _ _ _ _ _ _ _ _ _ h u2
    · rw [if_neg hz]
      exact ih st h u

theorem scanRM_WF (b : Bool) (pic : Nat → Nat → Nat × Nat × Nat) (data : List Nat)
    (width radius maxError : Nat) (xErr yErr2 : List Nat) (j minJ maxJ : Nat) :
    ∀ (is : List Nat) (st : ScanSt), (∀ u, st.pixels.getD u 0 < 256) →
    ∀ u, (scanRM b pic data width radius maxError
      xErr yErr2 j minJ maxJ is st).1.pixels.getD u 0 < 256 := by
  intro is
  induction is with
  | nil => intro st h u; simpa [scanRM] using h u
  | cons i is ih =>
    intro st h u
    simp only [scanRM]
    by_cases hz : xErr.getD i 0 = 0
    · rw [if_pos hz]
      dsimp only
      apply ih
      intro u2
      simp only [processCrossRM]
      exact splatRectRM_WF _ _ _ _ _ _ _ _ _ _ _ _ _ _ _ h u2
    · rw [if_neg hz]
      exact ih st h u

theorem updateLines_WF {width height radius : Nat} {b : Bool}
    {pic : Nat → Nat → Nat × Nat × Nat} {data : List Nat} {s : SplashState}
    (h : ∀ u, s.pixels.getD u 0 < 256) :
    ∀ u, (updateLines width height radius b pic data s).2.1.pixels.getD u 0 < 256 := by
  intro u
  by_cases hz : (worstOf s.xErr width).1 + (worstOf s.yErr height).1 = 0
  · rw [updateLines_of_allzero hz]
    exact h u
  by_cases h1 : (worstOf s.xErr width).1 > (worstOf s.yErr height).1
  · rw [updateLines_of_col hz h1]
    dsimp only
    exact scanCM_WF _ _ _ _ _ _ _ _ _ _ _ _ _ (⟨s.pixels, s.pos, s.numPixels⟩ : ScanSt) h u
  · rw [updateLines_of_row hz h1]
    dsimp only
    exact scanRM_WF _ _ _ _ _ _ _ _ _ _ _ _ (⟨s.pixels, s.pos, s.numPixels⟩ : ScanSt) h u

theorem updateLines_enc_pos {width height radius : Nat}
    {pic : Nat → Nat → Nat × Nat × Nat} {s : SplashState} :
    (updateLines width height radius true pic [] s).2.1.pos =
    s.pos + (updateLines width height radius true pic [] s).2.2.length := by
  by_cases hz : (worstOf s.xErr width).1 + (worstOf s.yErr height).1 = 0
  · rw [updateLines_of_allzero hz]
    rfl
  by_cases h1 : (worstOf s.xErr width).1 > (worstOf s.yErr height).1
  · rw [updateLines_of_col hz h1]
    dsimp only
    exact scanCM_enc_pos _ _ _ _ _ _ _ _ _ _ _ _ _
  · rw [updateLines_of_row hz h1]
    dsimp only
    exact scanRM_enc_pos _ _ _ _ _ _ _ _ _ _ _ _

theorem updateLines_out_nil {width height radius : Nat}
    {pic : Nat → Nat → Nat × Nat × Nat} {s : SplashState}
    (h : (updateLines width height radius true pic [] s).2.2 = []) :
    (updateLines width height radius true pic [] s).2.1.pixels = s.pixels := by
  by_cases hz : (worstOf s.xErr width).1 + (worstOf s.yErr height).1 = 0
  · rw [updateLines_of_allzero hz]
  by_cases h1 : (worstOf s.xErr width).1 > (worstOf s.yErr height).1
  · rw [updateLines_of_col hz h1] at h ⊢
    dsimp only at h ⊢
    rw [scanCM_out_nil _ _ _ _ _ _ _ _ _ _ _ _ _ h]
  · rw [updateLines_of_row hz h1] at h ⊢
    dsimp only at h ⊢
    rw [scanRM_out_nil _ _ _ _ _ _ _ _ _ _ _ _ h]

theorem updateLines_out_lt {width height radius : Nat}
    {pic : Nat → Nat → Nat × Nat × Nat} {s : SplashState} {x : Nat}
    (h : x ∈ (updateLines width height radius true pic [] s).2.2) :
    x < 256 := by
  by_cases hz : (worstOf s.xErr width).1 + (worstOf s.yErr height).1 = 0
  · rw [updateLines_of_allzero hz] at h
    simp at h
  by_cases h1 : (worstOf s.xErr width).1 > (worstOf s.yErr height).1
  · rw [updateLines_of_col hz h1] at h
    dsimp only at h
    exact scanCM_out_lt _ _ _ _ _ _ _ _ _ _ _ _ _ x h
  · rw [updateLines_of_row hz h1] at h
    dsimp only at h
    exact scanRM_out_lt _ _ _ _ _ _ _ _ _ _ _ _ x h

/-! ## Encode/decode step equivalence -/

theorem processCrossCM_enc_eq (pic : Nat → Nat → Nat × Nat × Nat) (data : List Nat)
    (height radius width maxError : Nat) (xErr2 yErr : List Nat)
    (i minI maxI j : Nat) (st : ScanSt) :
    processCrossCM true pic data height radius width maxError xErr2 yErr i minI maxI j st =
    (⟨splatRectCM width radius maxError xErr2 yErr i j
        ((pic i j).1 % 256) ((pic i j).2.1 % 256) ((pic i j).2.2 % 256)
        minI maxI (expandLo yErr j (radius - 1)) (expandHi yErr height j (radius - 1))
        st.pixels,
      st.pos + 3, st.numPixels + 1⟩,
     [(pic i j).1 % 256, (pic i j).2.1 % 256, (pic i j).2.2 % 256]) := rfl

theorem processCrossCM_dec_eq (pic : Nat → Nat → Nat × Nat × Nat) (data : List Nat)
    (height radius width maxError : Nat) (xErr2 yErr : List Nat)
    (i minI maxI j : Nat) (st : ScanSt) :
    processCrossCM false pic data height radius width maxError xErr2 yErr i minI maxI j st =
    (⟨splatRectCM width radius maxError xErr2 yErr i j
        (byteAt data st.pos) (byteAt data (st.pos + 1)) (byteAt data (st.pos + 2))
        minI maxI (expandLo yErr j (radius - 1)) (expandHi yErr height j (radius - 1))
        st.pixels,
      st.pos + 3, st.numPixels⟩,
     []) := rfl

theorem processCrossRM_enc_eq (pic : Nat → Nat → Nat × Nat × Nat) (data : List Nat)
    (width radius maxError : Nat) (xErr yErr2 : List Nat)
    (j minJ maxJ i : Nat) (st : ScanSt) :
    processCrossRM true pic data width radius maxError xErr yErr2 j minJ maxJ i st =
    (⟨splatRectRM width radius maxError xErr yErr2 i j
        ((pic i j).1 % 256) ((pic i j).2.1 % 256) ((pic i j).2.2 % 256)
        (expandLo xErr i (radius - 1)) (expandHi xErr width i (radius - 1)) minJ maxJ
        st.pixels,
      st.pos + 3, st.numPixels + 1⟩,
     [(pic i j).1 % 256, (pic i j).2.1 % 256, (pic i j).2.2 % 256]) := rfl

theorem processCrossRM_dec_eq (pic : Nat → Nat → Nat × Nat × Nat) (data : List Nat)
    (width radius maxError : Nat) (xErr yErr2 : List Nat)
    (j minJ maxJ i : Nat) (st : ScanSt) :
    processCrossRM false pic data width radius maxError xErr yErr2 j minJ maxJ i st =
    (⟨splatRectRM width radius maxError xErr yErr2 i j
        (byteAt data st.pos) (byteAt data (st.pos + 1)) (byteAt data (st.pos + 2))
        (expandLo xErr i (radius - 1)) (expandHi xErr width i (radius - 1)) minJ maxJ
        st.pixels,
      st.pos + 3, st.numPixels⟩,
     []) := rfl

theorem scanCM_equiv (pic pic2 : Nat → Nat → Nat × Nat × Nat) (data : List Nat)
    (height radius width maxError : Nat) (xErr2 yErr : List Nat) (i minI maxI : Nat) :
    ∀ (js : List Nat) (st : ScanSt) (np : Nat),
    (∀ m, m < (scanCM true pic [] height radius width maxError
        xErr2 yErr i minI maxI js st).2.length →
      byteAt data (st.pos + m) =
      (scanCM true pic [] height radius width maxError xErr2 yErr i minI maxI js st).2.getD m 0) →
    scanCM false pic2 data height radius width maxError xErr2 yErr i minI maxI js
        ⟨st.pixels, st.pos, np⟩ =
      (⟨(scanCM true pic [] height radius width maxError xErr2 yErr i minI maxI js st).1.pixels,
        (scanCM true pic [] height radius width maxError xErr2 yErr i minI maxI js st).1.pos,
        np⟩,
       []) := by
  intro js
  induction js with
  | nil =>
    intro st np _
    simp [scanCM]
  | cons j js ih =>
    intro st np hdata
    by_cases hz : yErr.getD j 0 = 0
    · have henc : scanCM true pic [] height radius width maxError
          xErr2 yErr i minI maxI (j :: js) st =
          (let r1 := processCrossCM true pic [] height radius width maxError
              xErr2 yErr i minI maxI j st
           let r2 := scanCM true pic [] height radius width maxError
              xErr2 yErr i minI maxI js r1.1
           (r2.1, r1.2 ++ r2.2)) := by
        simp only [scanCM, if_pos hz]
      rw [henc] at hdata ⊢
      dsimp only at hdata ⊢
      rw [processCrossCM_enc_eq] at hdata ⊢
      dsimp only at hdata ⊢
      have hlen3 : ([(pic i j).1 % 256, (pic i j).2.1 % 256, (pic i j).2.2 % 256] : List Nat).length = 3 := rfl
      have hout_ge : 3 ≤ ([(pic i j).1 % 256, (pic i j).2.1 % 256, (pic i j).2.2 % 256] ++
          (scanCM true pic [] height radius width maxError xErr2 yErr i minI maxI js
            ⟨splatRectCM width radius maxError xErr2 yErr i j
              ((pic i j).1 % 256) ((pic i j).2.1 % 256) ((pic i j).2.2 % 256)
              minI maxI (expandLo yErr j (radius - 1)) (expandHi yErr height j (radius - 1))
              st.pixels,
             st.pos + 3, st.numPixels + 1⟩).2).length := by
        rw [List.length_append, hlen3]
        omega
      have hb0 : byteAt data st.pos = (pic i j).1 % 256 := by
        have := hdata 0 (by omega)
        rwa [Nat.add_zero, List.getD_append _ _ _ 0 (by rw [hlen3]; omega)] at this
      have hb1 : byteAt data (st.pos + 1) = (pic i j).2.1 % 256 := by
        have := hdata 1 (by omega)
        rwa [List.getD_append _ _ _ 1 (by rw [hlen3]; omega)] at this
      have hb2 : byteAt data (st.pos + 2) = (pic i j).2.2 % 256 := by
        have := hdata 2 (by omega)
        rwa [List.getD_append _ _ _ 2 (by rw [hlen3]; omega)] at this
      have hdec : scanCM false pic2 data height radius width maxError
          xErr2 yErr i minI maxI (j :: js) ⟨st.pixels, st.pos, np⟩ =
          (let r1 := processCrossCM false pic2 data height radius width maxError
              xErr2 yErr i minI maxI j ⟨st.pixels, st.pos, np⟩
           let r2 := scanCM false pic2 data height radius width maxError
              xErr2 yErr i minI maxI js r1.1
           (r2.1, r1.2 ++ r2.2)) := by
        simp only [scanCM, if_pos hz]
      rw [hdec, processCrossCM_dec_eq]
      dsimp only
      rw [hb0, hb1, hb2]
      have hrec := ih (⟨splatRectCM width radius maxError xErr2 yErr i j
          ((pic i j).1 % 256) ((pic i j).2.1 % 256) ((pic i j).2.2 % 256)
          minI maxI (expandLo yErr j (radius - 1)) (expandHi yErr height j (radius - 1))
          st.pixels,
        st.pos + 3, st.numPixels + 1⟩ : ScanSt) np
        (by
          intro m hm
          have := hdata (3 + m) (by
            rw [List.length_append, hlen3]
            omega)
          rw [List.getD_append_right _ _ _ (3 + m) (by rw [hlen3]; omega)] at this
          rw [hlen3] at this
          simpa [Nat.add_assoc, Nat.add_sub_cancel_left] using this)
      dsimp only at hrec
      rw [hrec]
      simp
    · have henc : scanCM true pic [] height radius width maxError
          xErr2 yErr i minI maxI (j :: js) st =
          scanCM true pic [] height radius width maxError xErr2 yErr i minI maxI js st := by
        simp only [scanCM, if_neg hz]
      have hdec : scanCM false pic2 data height radius width maxError
          xErr2 yErr i minI maxI (j :: js) ⟨st.pixels, st.pos, np⟩ =
          scanCM false pic2 data height radius width maxError xErr2 yErr i minI maxI js
            ⟨st.pixels, st.pos, np⟩ := by
        simp only [scanCM, if_neg hz]
      rw [henc] at hdata ⊢
      rw [hdec]
      exact ih st np hdata

theorem scanRM_equiv (pic pic2 : Nat → Nat → Nat × Nat × Nat) (data : List Nat)
    (width radius maxError : Nat) (xErr yErr2 : List Nat) (j minJ maxJ : Nat) :
    ∀ (is : List Nat) (st : ScanSt) (np : Nat),
    (∀ m, m < (scanRM true pic [] width radius maxError
        xErr yErr2 j minJ maxJ is st).2.length →
      byteAt data (st.pos + m) =
      (scanRM true pic [] width radius maxError xErr yErr2 j minJ maxJ is st).2.getD m 0) →
    scanRM false pic2 data width radius maxError xErr yErr2 j minJ maxJ is
        ⟨st.pixels, st.pos, np⟩ =
      (⟨(scanRM true pic [] width radius maxError xErr yErr2 j minJ maxJ is st).1.pixels,
        (scanRM true pic [] width radius maxError xErr yErr2 j minJ maxJ is st).1.pos,
        np⟩,
       []) := by
  intro is
  induction is with
  | nil =>
    intro st np _
    simp [scanRM]
  | cons i is ih =>
    intro st np hdata
    by_cases hz : xErr.getD i 0 = 0
    · have henc : scanRM true pic [] width radius maxError
          xErr yErr2 j minJ maxJ (i :: is) st =
          (let r1 := processCrossRM true pic [] width radius maxError
              xErr yErr2 j minJ maxJ i st
           let r2 := scanRM true pic [] width radius maxError
              xErr yErr2 j minJ maxJ is r1.1
           (r2.1, r1.2 ++ r2.2)) := by
        simp only [scanRM, if_pos hz]
      rw [henc] at hdata ⊢
      dsimp only at hdata ⊢
      rw [processCrossRM_enc_eq] at hdata ⊢
      dsimp only at hdata ⊢
      have hlen3 : ([(pic i j).1 % 256, (pic i j).2.1 % 256, (pic i j).2.2 % 256] : List Nat).length = 3 := rfl
      have hout_ge : 3 ≤ ([(pic i j).1 % 256, (pic i j).2.1 % 256, (pic i j).2.2 % 256] ++
          (scanRM true pic [] width radius maxError xErr yErr2 j minJ maxJ is
            ⟨splatRectRM width radius maxError xErr yErr2 i j
              ((pic i j).1 % 256) ((pic i j).2.1 % 256) ((pic i j).2.2 % 256)
              (expandLo xErr i (radius - 1)) (expandHi xErr width i (radius - 1)) minJ maxJ
              st.pixels,
             st.pos + 3, st.numPixels + 1⟩).2).length := by
        rw [List.length_append, hlen3]
        omega
      have hb0 : byteAt data st.pos = (pic i j).1 % 256 := by
        have := hdata 0 (by omega)
        rwa [Nat.add_zero, List.getD_append _ _ _ 0 (by rw [hlen3]; omega)] at this
      have hb1 : byteAt data (st.pos + 1) = (pic i j).2.1 % 256 := by
        have := hdata 1 (by omega)
        rwa [List.getD_append _ _ _ 1 (by rw [hlen3]; omega)] at this
      have hb2 : byteAt data (st.pos + 2) = (pic i j).2.2 % 256 := by
        have := hdata 2 (by omega)
        rwa [List.getD_append _ _ _ 2 (by rw [hlen3]; omega)] at this
      have hdec : scanRM false pic2 data width radius maxError
          xErr yErr2 j minJ maxJ (i :: is) ⟨st.pixels, st.pos, np⟩ =
          (let r1 := processCrossRM false pic2 data width radius maxError
              xErr yErr2 j minJ maxJ i ⟨st.pixels, st.pos, np⟩
           let r2 := scanRM false pic2 data width radius maxError
              xErr yErr2 j minJ maxJ is r1.1
           (r2.1, r1.2 ++ r2.2)) := by
        simp only [scanRM, if_pos hz]
      rw [hdec, processCrossRM_dec_eq]
      dsimp only
      rw [hb0, hb1, hb2]
      have hrec := ih (⟨splatRectRM width radius maxError xErr yErr2 i j
          ((pic i j).1 % 256) ((pic i j).2.1 % 256) ((pic i j).2.2 % 256)
          (expandLo xErr i (radius - 1)) (expandHi xErr width i (radius - 1)) minJ maxJ
          st.pixels,
        st.pos + 3, st.numPixels + 1⟩ : ScanSt) np
        (by
          intro m hm
          have := hdata (3 + m) (by
            rw [List.length_append, hlen3]
            omega)
          rw [List.getD_append_right _ _ _ (3 + m) (by rw [hlen3]; omega)] at this
          rw [hlen3] at this
          simpa [Nat.add_assoc, Nat.add_sub_cancel_left] using this)
      dsimp only at hrec
      rw [hrec]
      simp
    · have henc : scanRM true pic [] width radius maxError
          xErr yErr2 j minJ maxJ (i :: is) st =
          scanRM true pic [] width radius maxError xErr yErr2 j minJ maxJ is st := by
        simp only [scanRM, if_neg hz]
      have hdec : scanRM false pic2 data width radius maxError
          xErr yErr2 j minJ maxJ (i :: is) ⟨st.pixels, st.pos, np⟩ =
          scanRM false pic2 data width radius maxError xErr yErr2 j minJ maxJ is
            ⟨st.pixels, st.pos, np⟩ := by
        simp only [scanRM, if_neg hz]
      rw [henc] at hdata ⊢
      rw [hdec]
      exact ih st np hdata

theorem updateLines_equiv (width height radius : Nat)
    (pic pic2 : Nat → Nat → Nat × Nat × Nat) (data : List Nat)
    (s : SplashState) (np : Nat)
    (hdata : ∀ m, m < (updateLines width height radius true pic [] s).2.2.length →
      byteAt data (s.pos + m) = (updateLines width height radius true pic [] s).2.2.getD m 0) :
    updateLines width height radius false pic2 data ⟨s.xErr, s.yErr, s.pixels, s.pos, np⟩ =
      ((updateLines width height radius true pic [] s).1,
       ⟨(updateLines width height radius true pic [] s).2.1.xErr,
        (updateLines width height radius true pic [] s).2.1.yErr,
        (updateLines width height radius true pic [] s).2.1.pixels,
        (updateLines width height radius true pic [] s).2.1.pos, np⟩,
       []) := by
  by_cases hz : (worstOf s.xErr width).1 + (worstOf s.yErr height).1 = 0
  · rw [updateLines_of_allzero hz,
      @updateLines_of_allzero width height radius false pic2 data
        ⟨s.xErr, s.yErr, s.pixels, s.pos, np⟩ hz]
  by_cases h1 : (worstOf s.xErr width).1 > (worstOf s.yErr height).1
  · rw [updateLines_of_col hz h1] at hdata ⊢
    rw [@updateLines_of_col width height radius false pic2 data
      ⟨s.xErr, s.yErr, s.pixels, s.pos, np⟩ hz h1]
    dsimp only at hdata ⊢
    rw [scanCM_equiv pic pic2 data height radius width _ _ s.yErr _ _ _
      (List.range height) ⟨s.pixels, s.pos, s.numPixels⟩ np hdata]
  · rw [updateLines_of_row hz h1] at hdata ⊢
    rw [@updateLines_of_row width height radius false pic2 data
      ⟨s.xErr, s.yErr, s.pixels, s.pos, np⟩ hz h1]
    dsimp only at hdata ⊢
    rw [scanRM_equiv pic pic2 data width radius _ s.xErr _ _ _ _
      (List.range width) ⟨s.pixels, s.pos, s.numPixels⟩ np hdata]

theorem engineIter_equiv (width height radius : Nat)
    (pic pic2 : Nat → Nat → Nat × Nat × Nat) (data : List Nat) :
    ∀ (n : Nat) (s : SplashState) (np : Nat),
    (∀ m, m < (engineIter width height radius true pic [] n s).2.length →
      byteAt data (s.pos + m) =
      (engineIter width height radius true pic [] n s).2.getD m 0) →
    engineIter width height radius false pic2 data n ⟨s.xErr, s.yErr, s.pixels, s.pos, np⟩ =
      (⟨(engineIter width height radius true pic [] n s).1.xErr,
        (engineIter width height radius true pic [] n s).1.yErr,
        (engineIter width height radius true pic [] n s).1.pixels,
        (engineIter width height radius true pic [] n s).1.pos, np⟩,
       []) := by
  intro n
  induction n with
  | zero => intro s np _; simp [engineIter]
  | succ n ih =>
    intro s np hdata
    simp only [engineIter] at hdata ⊢
    have hstep := updateLines_equiv width height radius pic pic2 data s np (by
      intro m hm
      have := hdata m (by
        rw [List.length_append]
        omega)
      rwa [List.getD_append _ _ _ m hm] at this)
    rw [hstep]
    dsimp only
    have hrec := ih (updateLines width height radius true pic [] s).2.1 np (by
      intro m hm
      have := hdata ((updateLines width height radius true pic [] s).2.2.length + m) (by
        rw [List.length_append]
        omega)
      rw [List.getD_append_right _ _ _ _ (by omega), Nat.add_sub_cancel_left] at this
      rw [updateLines_enc_pos, Nat.add_assoc]
      exact this)
    rw [hrec]
    simp

/-! ## Encoder-loop accounting -/

theorem updateLines_false_inv {width height radius : Nat} {b : Bool}
    {pic : Nat → Nat → Nat × Nat × Nat} {data : List Nat} {s : SplashState}
    (h : (updateLines width height radius b pic data s).1 = false) :
    updateLines width height radius b pic data s = (false, s, []) :=
  updateLines_of_allzero (updateLines_done_iff.mp h)

theorem encodeLoop_pos (width height radius maxPixels : Nat)
    (pic : Nat → Nat → Nat × Nat × Nat) :
    ∀ (fuel : Nat) (s : SplashState),
    (encodeLoop width height radius maxPixels pic fuel s).1.pos =
    s.pos + (encodeLoop width height radius maxPixels pic fuel s).2.length := by
  intro fuel
  induction fuel with
  | zero => intro s; simp [encodeLoop]
  | succ n ih =>
    intro s
    simp only [encodeLoop]
    by_cases hdone : (updateLines width height radius true pic [] s).1 = false
    · rw [if_pos hdone, updateLines_false_inv hdone]
      rfl
    · rw [if_neg hdone]
      by_cases hnp : (updateLines width height radius true pic [] s).2.1.numPixels < maxPixels
      · rw [if_pos hnp]
        dsimp only
        rw [ih, updateLines_enc_pos, List.length_append]
        omega
      · rw [if_neg hnp]
        exact updateLines_enc_pos

theorem encodeLoop_out_nil (width height radius maxPixels : Nat)
    (pic : Nat → Nat → Nat × Nat × Nat) :
    ∀ (fuel : Nat) (s : SplashState),
    (encodeLoop width height radius maxPixels pic fuel s).2 = [] →
    (encodeLoop width height radius maxPixels pic fuel s).1.pixels = s.pixels := by
  intro fuel
  induction fuel with
  | zero => intro s _; simp [encodeLoop]
  | succ n ih =>
    intro s h
    simp only [encodeLoop] at h ⊢
    by_cases hdone : (updateLines width height radius true pic [] s).1 = false
    · rw [if_pos hdone] at h ⊢
      rw [updateLines_false_inv hdone]
    · rw [if_neg hdone] at h ⊢
      by_cases hnp : (updateLines width height radius true pic [] s).2.1.numPixels < maxPixels
      · rw [if_pos hnp] at h ⊢
        dsimp only at h ⊢
        rcases List.append_eq_nil.mp h with ⟨h1, h2⟩
        rw [ih _ h2, updateLines_out_nil h1]
      · rw [if_neg hnp] at h ⊢
        exact updateLines_out_nil h

theorem encodeLoop_out_lt (width height radius maxPixels : Nat)
    (pic : Nat → Nat → Nat × Nat × Nat) :
    ∀ (fuel : Nat) (s : SplashState) (x : Nat),
    x ∈ (encodeLoop width height radius maxPixels pic fuel s).2 → x < 256 := by
  intro fuel
  induction fuel with
  | zero => intro s x h; simp [encodeLoop] at h
  | succ n ih =>
    intro s x h
    simp only [encodeLoop] at h
    by_cases hdone : (updateLines width height radius true pic [] s).1 = false
    · rw [if_pos hdone] at h
      exact updateLines_out_lt h
    · rw [if_neg hdone] at h
      by_cases hnp : (updateLines width height radius true pic [] s).2.1.numPixels < maxPixels
      · rw [if_pos hnp] at h
        dsimp only at h
        rw [List.mem_append] at h
        rcases h with h | h
        · exact updateLines_out_lt h
        · exact ih _ x h
      · rw [if_neg hnp] at h
        exact updateLines_out_lt h

/-! ## Loop equivalence -/

theorem loop_equiv (width height radius maxPixels : Nat)
    (pic : Nat → Nat → Nat × Nat × Nat) (data : List Nat) :
    ∀ (fuel : Nat) (s : SplashState) (np size : Nat),
    (∀ m, m < (encodeLoop width height radius maxPixels pic fuel s).2.length →
      byteAt data (s.pos + m) =
      (encodeLoop width height radius maxPixels pic fuel s).2.getD m 0) →
    size = s.pos + (encodeLoop width height radius maxPixels pic fuel s).2.length →
    (decodeLoop width height radius size data fuel
        ⟨s.xErr, s.yErr, s.pixels, s.pos, np⟩).pixels =
    (encodeLoop width height radius maxPixels pic fuel s).1.pixels := by
  intro fuel
  induction fuel with
  | zero => intro s np size _ _; simp [encodeLoop, decodeLoop]
  | succ n ih =>
    intro s np size hdata hsize
    simp only [encodeLoop, decodeLoop] at hsize hdata ⊢
    by_cases hdone : (updateLines width height radius true pic [] s).1 = false
    · rw [if_pos hdone] at hsize hdata ⊢
      have hstep := updateLines_equiv width height radius pic (fun _ _ => (0, 0, 0)) data s np (by
        rw [updateLines_false_inv hdone]
        intro m hm
        simp at hm)
      rw [hstep]
      have : (updateLines width height radius true pic [] s).1 = false := hdone
      rw [if_pos (by rw [this]), updateLines_false_inv hdone]
    · rw [if_neg hdone] at hsize hdata ⊢
      by_cases hnp : (updateLines width height radius true pic [] s).2.1.numPixels < maxPixels
      · rw [if_pos hnp] at hsize hdata ⊢
        dsimp only at hsize hdata ⊢
        have hstep := updateLines_equiv width height radius pic (fun _ _ => (0, 0, 0)) data s np (by
          intro m hm
          have := hdata m (by
            rw [List.length_append]
            omega)
          rwa [List.getD_append _ _ _ m hm] at this)
        rw [hstep]
        dsimp only
        rw [if_neg hdone]
        by_cases hrest : (encodeLoop width height radius maxPixels pic n
            (updateLines width height radius true pic [] s).2.1).2 = []
        · have hcond : ¬ ((⟨(updateLines width height radius true pic [] s).2.1.xErr,
              (updateLines width height radius true pic [] s).2.1.yErr,
              (updateLines width height radius true pic [] s).2.1.pixels,
              (updateLines width height radius true pic [] s).2.1.pos, np⟩ : SplashState).pos
              < size) := by
            dsimp only
            rw [hsize, List.length_append, updateLines_enc_pos, hrest]
            simp
          rw [if_neg hcond]
          dsimp only
          rw [encodeLoop_out_nil _ _ _ _ _ _ _ hrest]
        · have hcond : ((⟨(updateLines width height radius true pic [] s).2.1.xErr,
              (updateLines width height radius true pic [] s).2.1.yErr,
              (updateLines width height radius true pic [] s).2.1.pixels,
              (updateLines width height radius true pic [] s).2.1.pos, np⟩ : SplashState).pos
              < size) := by
            dsimp only
            rw [hsize, List.length_append, updateLines_enc_pos]
            have : (encodeLoop width height radius maxPixels pic n
                (updateLines width height radius true pic [] s).2.1).2.length ≠ 0 := by
              intro hc
              exact hrest (List.length_eq_zero.mp hc)
            omega
          rw [if_pos hcond]
          exact ih (updateLines width height radius true pic [] s).2.1 np size
            (by
              intro m hm
              have := hdata ((updateLines width height radius true pic [] s).2.2.length + m) (by
                rw [List.length_append]
                omega)
              rw [List.getD_append_right _ _ _ _ (by omega), Nat.add_sub_cancel_left] at this
              rw [updateLines_enc_pos, Nat.add_assoc]
              exact this)
            (by
              rw [hsize, List.length_append, updateLines_enc_pos]
              omega)
      · rw [if_neg hnp] at hsize hdata ⊢
        have hstep := updateLines_equiv width height radius pic (fun _ _ => (0, 0, 0)) data s np hdata
        rw [hstep]
        dsimp only
        rw [if_neg hdone]
        have hcond : ¬ ((⟨(updateLines width height radius true pic [] s).2.1.xErr,
            (updateLines width height radius true pic [] s).2.1.yErr,
            (updateLines width height radius true pic [] s).2.1.pixels,
            (updateLines width height radius true pic [] s).2.1.pos, np⟩ : SplashState).pos
            < size) := by
          dsimp only
          rw [hsize, updateLines_enc_pos]
          simp
        rw [if_neg hcond]

/-! ## Wire-format round trips -/

theorem le24List_length (l : List Nat) : (le24List l).length = 3 * l.length := by
  unfold le24List
  induction l with
  | nil => simp
  | cons a l ih =>
    simp only [List.map_cons, List.flatten_cons, List.length_append, ih]
    simp [le24]
    omega

theorem le24List_getD (l : List Nat) :
    ∀ (idx c : Nat), idx < l.length → c < 3 →
    (le24List l).getD (3 * idx + c) 0 = (le24 (l.getD idx 0)).getD c 0 := by
  induction l with
  | nil => intro idx c h _; simp at h
  | cons a l ih =>
    intro idx c h hc
    unfold le24List
    rw [List.map_cons, List.flatten_cons]
    match idx with
    | 0 =>
      rw [List.getD_append _ _ _ _ (by simp [le24]; omega)]
      simp
    | idx + 1 =>
      rw [List.getD_append_right _ _ _ _ (by simp [le24]; omega)]
      have harith : 3 * (idx + 1) + c - (le24 a).length = 3 * idx + c := by
        simp [le24]
        omega
      rw [harith]
      have := ih idx c (by simpa using h) hc
      unfold le24List at this
      rw [this]
      simp

theorem getD_mem {l : List Nat} {m : Nat} (h : m < l.length) : l.getD m 0 ∈ l := by
  rw [List.getD_eq_getElem?_getD, List.getElem?_eq_getElem h]
  exact List.getElem_mem h

theorem parse24_section (pre l rest : List Nat) (idx : Nat)
    (h : idx < l.length) (hle : l.getD idx 0 ≤ 0xffffff) :
    parse24 (pre ++ (le24List l ++ rest)) (pre.length + 3 * idx) = l.getD idx 0 := by
  have hb : ∀ c, c < 3 →
      byteAt (pre ++ (le24List l ++ rest)) (pre.length + 3 * idx + c) =
      (le24 (l.getD idx 0)).getD c 0 % 256 := by
    intro c hc
    unfold byteAt
    rw [Nat.add_assoc, List.getD_append_right _ _ _ _ (by omega), Nat.add_sub_cancel_left]
    rw [List.getD_append _ _ _ _ (by rw [le24List_length]; omega)]
    rw [le24List_getD l idx c h hc]
  unfold parse24
  have h0 := hb 0 (by omega)
  rw [Nat.add_zero] at h0
  have h1 := hb 1 (by omega)
  have h2 := hb 2 (by omega)
  rw [h0, h1, h2]
  simp only [le24, List.getD_cons_zero, List.getD_cons_succ]
  omega

theorem readErrs_section (pre l rest : List Nat)
    (hl : ∀ idx, idx < l.length → l.getD idx 0 ≤ 0xffffff) :
    readErrs (pre ++ (le24List l ++ rest)) pre.length l.length = l := by
  apply List.ext_getElem
  · unfold readErrs
    simp
  · intro n h1 h2
    unfold readErrs at h1 ⊢
    rw [List.length_map, List.length_range] at h1
    rw [List.getElem_map, List.getElem_range]
    have := parse24_section pre l rest n h1 (hl n h1)
    rw [this]
    rw [List.getD_eq_getElem?_getD, List.getElem?_eq_getElem h2]
    rfl

theorem xErrInit_length (width height : Nat) (pixels : List Nat)
    (pic : Nat → Nat → Nat × Nat × Nat) :
    (xErrInit width height pixels pic).length = width := by
  unfold xErrInit
  simp

theorem yErrInit_length (width height : Nat) (pixels : List Nat)
    (pic : Nat → Nat → Nat × Nat × Nat) :
    (yErrInit width height pixels pic).length = height := by
  unfold yErrInit
  simp

theorem colErr_le (width height : Nat) (pixels : List Nat)
    (pic : Nat → Nat → Nat × Nat × Nat) (i : Nat) :
    colErr width height pixels pic i ≤ 0xffffff := by
  unfold colErr
  dsimp only
  split <;> omega

theorem rowErr_le (width : Nat) (pixels : List Nat)
    (pic : Nat → Nat → Nat × Nat × Nat) (j : Nat) :
    rowErr width pixels pic j ≤ 0xffffff := by
  unfold rowErr
  dsimp only
  split <;> omega

theorem xErrInit_le (width height : Nat) (pixels : List Nat)
    (pic : Nat → Nat → Nat × Nat × Nat) :
    ∀ idx, idx < (xErrInit width height pixels pic).length →
    (xErrInit width height pixels pic).getD idx 0 ≤ 0xffffff := by
  intro idx h
  rw [xErrInit_length] at h
  unfold xErrInit
  rw [getD_map_range h]
  exact colErr_le width height pixels pic idx

theorem yErrInit_le (width height : Nat) (pixels : List Nat)
    (pic : Nat → Nat → Nat × Nat × Nat) :
    ∀ idx, idx < (yErrInit width height pixels pic).length →
    (yErrInit width height pixels pic).getD idx 0 ≤ 0xffffff := by
  intro idx h
  rw [yErrInit_length] at h
  unfold yErrInit
  rw [getD_map_range h]
  exact rowErr_le width pixels pic idx

theorem packet_drop12 (radius : Nat) (rest : List Nat) :
    (packetHeader radius ++ rest).drop 12 = rest := by
  have h : (12 : Nat) = (packetHeader radius).length := rfl
  rw [h, List.drop_left]

theorem packet_hdrLength (radius : Nat) (rest : List Nat) :
    byteAt (packetHeader radius ++ rest) 0 + byteAt (packetHeader radius ++ rest) 1 * 256 +
      byteAt (packetHeader radius ++ rest) 2 * 65536 = 12 := by
  have h0 : byteAt (packetHeader radius ++ rest) 0 = 12 := by
    simp [packetHeader, byteAt]
  have h1 : byteAt (packetHeader radius ++ rest) 1 = 0 := by
    simp [packetHeader, byteAt]
  have h2 : byteAt (packetHeader radius ++ rest) 2 = 0 := by
    simp [packetHeader, byteAt]
  rw [h0, h1, h2]

theorem packet_radius (radius : Nat) (rest : List Nat) (h : radius ≤ 255) :
    byteAt (packetHeader radius ++ rest) 10 = radius := by
  have h1 : byteAt (packetHeader radius ++ rest) 10 = radius % 256 % 256 := by
    simp [packetHeader, byteAt]
  rw [h1]
  omega

theorem packet_length (radius : Nat) (rest : List Nat) :
    (packetHeader radius ++ rest).length = 12 + rest.length := by
  rw [List.length_append]
  rfl

set_option maxHeartbeats 2000000 in
/-- C1 (amended with the wire cap `radius ≤ 255`): for every target frame,
every positive `width`, `height` and every radius in `[1, 255]`, decoding the
encoder's packet on a context with the same initial canvas reproduces the
encoder's final canvas byte-for-byte (so the exported frame is exactly the
export of the encoder's canvas); and, for every iteration count `n`, running
the engine `n` times in decode mode on a matching byte stream yields the same
canvas, `xErr` and `yErr` as `n` encode-mode iterations. -/
theorem C1_roundtrip_determinism (width height radius frameNumber : Nat)
    (ppf ppk : ℚ) (pixels0 : List Nat) (pic : Nat → Nat → Nat × Nat × Nat)
    (hW : 0 < width) (hH : 0 < height) (hr1 : 1 ≤ radius) (hr255 : radius ≤ 255) :
    ((splash_decode width height pixels0
        (splash_encode width height radius frameNumber ppf ppk pixels0 pic).packet).state.pixels =
      (splash_encode width height radius frameNumber ppf ppk pixels0 pic).state.pixels ∧
     (splash_decode width height pixels0
        (splash_encode width height radius frameNumber ppf ppk pixels0 pic).packet).frame =
      exportFrame width height
        (splash_encode width height radius frameNumber ppf ppk pixels0 pic).state.pixels) ∧
    (∀ (n np : Nat) (s : SplashState) (data : List Nat)
      (pic2 : Nat → Nat → Nat × Nat × Nat),
      (∀ m, m < (engineIter width height radius true pic [] n s).2.length →
        byteAt data (s.pos + m) =
        (engineIter width height radius true pic [] n s).2.getD m 0) →
      (engineIter width height radius false pic2 data n
          ⟨s.xErr, s.yErr, s.pixels, s.pos, np⟩).1.pixels =
        (engineIter width height radius true pic [] n s).1.pixels ∧
      (engineIter width height radius false pic2 data n
          ⟨s.xErr, s.yErr, s.pixels, s.pos, np⟩).1.xErr =
        (engineIter width height radius true pic [] n s).1.xErr ∧
      (engineIter width height radius false pic2 data n
          ⟨s.xErr, s.yErr, s.pixels, s.pos, np⟩).1.yErr =
        (engineIter width height radius true pic [] n s).1.yErr) := by
  constructor
  · -- round trip through the packet
    have hpix : (splash_decode width height pixels0
        (splash_encode width height radius frameNumber ppf ppk pixels0 pic).packet).state.pixels =
        (splash_encode width height radius frameNumber ppf ppk pixels0 pic).state.pixels := by
      simp only [splash_encode, splash_decode]
      rw [List.append_assoc, List.append_assoc]
      rw [packet_hdrLength, packet_radius radius _ hr255, packet_drop12, packet_length]
      have hxe := readErrs_section []
        (xErrInit width height pixels0 pic)
        (le24List (yErrInit width height pixels0 pic) ++
          (encodeLoop width height radius
            (if frameNumber = 0 then natRound (width * height * ppk.den) ppk.num.toNat
             else natRound (width * height * ppf.den) ppf.num.toNat)
            pic (width + height + 1)
            ⟨xErrInit width height pixels0 pic, yErrInit width height pixels0 pic,
              pixels0, 3 * (width + height), 0⟩).2)
        (xErrInit_le width height pixels0 pic)
      rw [List.nil_append, List.length_nil, xErrInit_length] at hxe
      have hye := readErrs_section (le24List (xErrInit width height pixels0 pic))
        (yErrInit width height pixels0 pic)
        (encodeLoop width height radius
            (if frameNumber = 0 then natRound (width * height * ppk.den) ppk.num.toNat
             else natRound (width * height * ppf.den) ppf.num.toNat)
            pic (width + height + 1)
            ⟨xErrInit width height pixels0 pic, yErrInit width height pixels0 pic,
              pixels0, 3 * (width + height), 0⟩).2
        (yErrInit_le width height pixels0 pic)
      rw [le24List_length, xErrInit_length, yErrInit_length] at hye
      rw [hxe, hye]
      exact loop_equiv width height radius
        (if frameNumber = 0 then natRound (width * height * ppk.den) ppk.num.toNat
         else natRound (width * height * ppf.den) ppf.num.toNat)
        pic
        (le24List (xErrInit width height pixels0 pic) ++
          (le24List (yErrInit width height pixels0 pic) ++
            (encodeLoop width height radius
              (if frameNumber = 0 then natRound (width * height * ppk.den) ppk.num.toNat
               else natRound (width * height * ppf.den) ppf.num.toNat)
              pic (width + height + 1)
              ⟨xErrInit width height pixels0 pic, yErrInit width height pixels0 pic,
                pixels0, 3 * (width + height), 0⟩).2))
        (width + height + 1)
        ⟨xErrInit width height pixels0 pic, yErrInit width height pixels0 pic,
          pixels0, 3 * (width + height), 0⟩
        0
        (12 + (le24List (xErrInit width height pixels0 pic) ++
            (le24List (yErrInit width height pixels0 pic) ++
              (encodeLoop width height radius
                (if frameNumber = 0 then natRound (width * height * ppk.den) ppk.num.toNat
                 else natRound (width * height * ppf.den) ppf.num.toNat)
                pic (width + height + 1)
                ⟨xErrInit width height pixels0 pic, yErrInit width height pixels0 pic,
                  pixels0, 3 * (width + height), 0⟩).2)).length - 12)
        (by
          intro m hm
          dsimp only at hm ⊢
          unfold byteAt
          rw [List.getD_append_right _ _ _ _ (by
            rw [le24List_length, xErrInit_length]
            omega)]
          rw [le24List_length, xErrInit_length]
          rw [List.getD_append_right _ _ _ _ (by
            rw [le24List_length, yErrInit_length]
            omega)]
          rw [le24List_length, yErrInit_length]
          have harith : 3 * (width + height) + m - 3 * width - 3 * height = m := by omega
          rw [harith]
          apply Nat.mod_eq_of_lt
          exact encodeLoop_out_lt _ _ _ _ _ _ _ _ (getD_mem hm))
        (by
          dsimp only
          rw [List.length_append, List.length_append, le24List_length, le24List_length,
            xErrInit_length, yErrInit_length]
          omega)
    refine ⟨hpix, ?_⟩
    have hframe : (splash_decode width height pixels0
        (splash_encode width height radius frameNumber ppf ppk pixels0 pic).packet).frame =
        exportFrame width height
          (splash_decode width height pixels0
            (splash_encode width height radius frameNumber ppf ppk
              pixels0 pic).packet).state.pixels := rfl
    rw [hframe, hpix]
  · -- per-iteration determinism of the shared engine
    intro n np s data pic2 hdata
    rw [engineIter_equiv width height radius pic pic2 data n s np hdata]
    exact ⟨rfl, rfl, rfl⟩

/-! ## Claim theorems -/

/-- C8: the engine returns `false` iff every entry of both rulers is zero,
and in that case the whole state — canvas, both rulers, the stream cursor —
is unchanged and nothing is emitted; in every other case it returns `true`,
and the pivot entry of the chosen ruler is zeroed (the rebalance happens even
when no sample is consumed or produced). -/
theorem C8_progress_or_termination (width height radius : Nat) (b : Bool)
    (pic : Nat → Nat → Nat × Nat × Nat) (data : List Nat) (s : SplashState)
    (hxlen : s.xErr.length = width) (hylen : s.yErr.length = height)
    (hW : 0 < width) (hH : 0 < height) :
    ((updateLines width height radius b pic data s).1 = false ↔
      ((∀ k, k < width → s.xErr.getD k 0 = 0) ∧
       (∀ k, k < height → s.yErr.getD k 0 = 0))) ∧
    ((updateLines width height radius b pic data s).1 = false →
      updateLines width height radius b pic data s = (false, s, [])) ∧
    ((updateLines width height radius b pic data s).1 = true →
      ((worstOf s.xErr width).1 > (worstOf s.yErr height).1 →
        (updateLines width height radius b pic data s).2.1.xErr.getD
          (worstOf s.xErr width).2 0 = 0) ∧
      (¬ (worstOf s.xErr width).1 > (worstOf s.yErr height).1 →
        (updateLines width height radius b pic data s).2.1.yErr.getD
          (worstOf s.yErr height).2 0 = 0)) := by
  refine ⟨?_, ?_, ?_⟩
  · rw [updateLines_done_iff]
    constructor
    · intro h
      have hx : (worstOf s.xErr width).1 = 0 := by omega
      have hy : (worstOf s.yErr height).1 = 0 := by omega
      exact ⟨(worstOf_zero_iff s.xErr width hW).mp hx,
        (worstOf_zero_iff s.yErr height hH).mp hy⟩
    · intro ⟨h1, h2⟩
      have hx := (worstOf_zero_iff s.xErr width hW).mpr h1
      have hy := (worstOf_zero_iff s.yErr height hH).mpr h2
      omega
  · exact updateLines_false_inv
  · intro hdone
    have hz : ¬ (worstOf s.xErr width).1 + (worstOf s.yErr height).1 = 0 := by
      intro hc
      rw [updateLines_of_allzero hc] at hdone
      simp at hdone
    constructor
    · intro h1
      rw [updateLines_of_col hz h1]
      dsimp only
      exact rebalance_pivot _ _ _ _ _ (expandLo_le s.xErr (radius - 1) _)
        (expandHi_ge s.xErr width (radius - 1) _)
    · intro h1
      rw [updateLines_of_row hz h1]
      dsimp only
      exact rebalance_pivot _ _ _ _ _ (expandLo_le s.yErr (radius - 1) _)
        (expandHi_ge s.yErr height (radius - 1) _)

/-- C8 witness at a concrete state. -/
theorem C8_witness :
    ([(0 : Nat), 0].length = 2 ∧ [(0 : Nat)].length = 1 ∧ 0 < 2 ∧ 0 < 1) ∧
    ((updateLines 2 1 1 false (fun _ _ => (0, 0, 0)) []
        ⟨[0, 0], [0], [1, 2, 3, 4, 5, 6, 7, 8], 0, 0⟩).1 = false ↔
      ((∀ k, k < 2 → ([(0 : Nat), 0]).getD k 0 = 0) ∧
       (∀ k, k < 1 → ([(0 : Nat)]).getD k 0 = 0))) :=
  ⟨⟨by decide, by decide, by decide, by decide⟩,
   (C8_progress_or_termination 2 1 1 false (fun _ _ => (0, 0, 0)) []
      ⟨[0, 0], [0], [1, 2, 3, 4, 5, 6, 7, 8], 0, 0⟩
      (by decide) (by decide) (by decide) (by decide)).1⟩

/-- C7: the ruler maxima are taken at their first occurrence (every earlier
entry is strictly smaller, every scanned entry is at most the maximum, and
the maximum is attained at the returned index); the iteration is
column-major exactly when `worstX > worstY` (then `yErr` is untouched), and
row-major otherwise — in particular on a tie — (then `xErr` is untouched). -/
theorem C7_pivot_selection (width height radius : Nat) (b : Bool)
    (pic : Nat → Nat → Nat × Nat × Nat) (data : List Nat) (s : SplashState)
    (hW : 0 < width) (hH : 0 < height) :
    ((worstOf s.xErr width).2 < width ∧
     s.xErr.getD (worstOf s.xErr width).2 0 = (worstOf s.xErr width).1 ∧
     (∀ k, k < width → s.xErr.getD k 0 ≤ (worstOf s.xErr width).1) ∧
     (∀ k, k < (worstOf s.xErr width).2 → s.xErr.getD k 0 < (worstOf s.xErr width).1)) ∧
    ((worstOf s.yErr height).2 < height ∧
     s.yErr.getD (worstOf s.yErr height).2 0 = (worstOf s.yErr height).1 ∧
     (∀ k, k < height → s.yErr.getD k 0 ≤ (worstOf s.yErr height).1) ∧
     (∀ k, k < (worstOf s.yErr height).2 → s.yErr.getD k 0 < (worstOf s.yErr height).1)) ∧
    ((worstOf s.xErr width).1 > (worstOf s.yErr height).1 →
      (updateLines width height radius b pic data s).2.1.yErr = s.yErr) ∧
    (¬ (worstOf s.xErr width).1 > (worstOf s.yErr height).1 →
      (updateLines width height radius b pic data s).2.1.xErr = s.xErr) := by
  refine ⟨worstOf_spec s.xErr width hW, worstOf_spec s.yErr height hH, ?_, ?_⟩
  · intro h1
    by_cases hz : (worstOf s.xErr width).1 + (worstOf s.yErr height).1 = 0
    · rw [updateLines_of_allzero hz]
    · rw [updateLines_of_col hz h1]
  · intro h1
    by_cases hz : (worstOf s.xErr width).1 + (worstOf s.yErr height).1 = 0
    · rw [updateLines_of_allzero hz]
    · rw [updateLines_of_row hz h1]

/-- C7 witness at a concrete state with a tie (`worstX = worstY = 7`):
row-major is selected, so `xErr` is untouched. -/
theorem C7_witness :
    (0 < 2 ∧ 0 < 2) ∧
    (¬ (worstOf [3, 7] 2).1 > (worstOf [7, 2] 2).1 →
      (updateLines 2 2 1 false (fun _ _ => (0, 0, 0)) []
        ⟨[3, 7], [7, 2], List.replicate 16 0x7f, 0, 0⟩).2.1.xErr = [3, 7]) :=
  ⟨⟨by decide, by decide⟩,
   (C7_pivot_selection 2 2 1 false (fun _ _ => (0, 0, 0)) []
      ⟨[3, 7], [7, 2], List.replicate 16 0x7f, 0, 0⟩ (by decide) (by decide)).2.2.2⟩

/-- The distance bound for the column pivot range: every index of
`[minI .. maxI]` is within `radius` of the pivot. -/
theorem col_range_dist {s : SplashState} (width radius : Nat) :
    ∀ ii, expandLo s.xErr (worstOf s.xErr width).2 (radius - 1) ≤ ii →
      ii ≤ expandHi s.xErr width (worstOf s.xErr width).2 (radius - 1) →
      Nat.dist ii (worstOf s.xErr width).2 ≤ radius := by
  intro ii hlo hhi
  have h1 := expandLo_ge s.xErr (radius - 1) (worstOf s.xErr width).2
  have h2 := expandHi_le s.xErr width (radius - 1) (worstOf s.xErr width).2
  simp only [Nat.dist]
  omega

/-- The distance bound for the row pivot range. -/
theorem row_range_dist {s : SplashState} (height radius : Nat) :
    ∀ jj, expandLo s.yErr (worstOf s.yErr height).2 (radius - 1) ≤ jj →
      jj ≤ expandHi s.yErr height (worstOf s.yErr height).2 (radius - 1) →
      Nat.dist jj (worstOf s.yErr height).2 ≤ radius := by
  intro jj hlo hhi
  have h1 := expandLo_ge s.yErr (radius - 1) (worstOf s.yErr height).2
  have h2 := expandHi_le s.yErr height (radius - 1) (worstOf s.yErr height).2
  simp only [Nat.dist]
  omega

/-- C5: every ruler entry is non-increasing across an engine iteration; a
zero entry never becomes nonzero again; and when the iteration does work,
the pivot entry of the chosen ruler is exactly zero after the Step-4
rebalance while every other entry of the pivot range `[minI..maxI]` that was
nonzero before stays nonzero. -/
theorem C5_ruler_monotonicity (width height radius : Nat) (b : Bool)
    (pic : Nat → Nat → Nat × Nat × Nat) (data : List Nat) (s : SplashState)
    (hW : 0 < width) (hH : 0 < height) (hr : 0 < radius) :
    (∀ k, (updateLines width height radius b pic data s).2.1.xErr.getD k 0 ≤
      s.xErr.getD k 0) ∧
    (∀ k, (updateLines width height radius b pic data s).2.1.yErr.getD k 0 ≤
      s.yErr.getD k 0) ∧
    (∀ k, s.xErr.getD k 0 = 0 →
      (updateLines width height radius b pic data s).2.1.xErr.getD k 0 = 0) ∧
    (∀ k, s.yErr.getD k 0 = 0 →
      (updateLines width height radius b pic data s).2.1.yErr.getD k 0 = 0) ∧
    ((updateLines width height radius b pic data s).1 = true →
      ((worstOf s.xErr width).1 > (worstOf s.yErr height).1 →
        (updateLines width height radius b pic data s).2.1.xErr.getD
          (worstOf s.xErr width).2 0 = 0 ∧
        (∀ ii, expandLo s.xErr (worstOf s.xErr width).2 (radius - 1) ≤ ii →
          ii ≤ expandHi s.xErr width (worstOf s.xErr width).2 (radius - 1) →
          ii ≠ (worstOf s.xErr width).2 → s.xErr.getD ii 0 ≠ 0 →
          (updateLines width height radius b pic data s).2.1.xErr.getD ii 0 ≠ 0)) ∧
      (¬ (worstOf s.xErr width).1 > (worstOf s.yErr height).1 →
        (updateLines width height radius b pic data s).2.1.yErr.getD
          (worstOf s.yErr height).2 0 = 0 ∧
        (∀ jj, expandLo s.yErr (worstOf s.yErr height).2 (radius - 1) ≤ jj →
          jj ≤ expandHi s.yErr height (worstOf s.yErr height).2 (radius - 1) →
          jj ≠ (worstOf s.yErr height).2 → s.yErr.getD jj 0 ≠ 0 →
          (updateLines width height radius b pic data s).2.1.yErr.getD jj 0 ≠ 0))) := by
  by_cases hz : (worstOf s.xErr width).1 + (worstOf s.yErr height).1 = 0
  · rw [updateLines_of_allzero hz]
    refine ⟨fun k => le_rfl, fun k => le_rfl, fun k h => h, fun k h => h, ?_⟩
    intro hc
    simp at hc
  by_cases h1 : (worstOf s.xErr width).1 > (worstOf s.yErr height).1
  · rw [updateLines_of_col hz h1]
    dsimp only
    have hpnz : s.xErr.getD (worstOf s.xErr width).2 0 ≠ 0 := by
      rw [worstOf_getD_self]
      omega
    refine ⟨?_, fun k => le_rfl, ?_, fun k h => h, ?_⟩
    · exact rebalance_mono s.xErr (worstOf s.xErr width).2 _ _ radius
        (col_range_dist width radius) (col_range_nonzero width radius)
    · exact rebalance_zero_stays s.xErr (worstOf s.xErr width).2 _ _ radius
        (col_range_nonzero width radius)
    · intro _
      refine ⟨?_, ?_⟩
      · intro _
        refine ⟨rebalance_pivot _ _ _ _ _ (expandLo_le s.xErr (radius - 1) _)
          (expandHi_ge s.xErr width (radius - 1) _), ?_⟩
        intro ii hlo hhi hne hnz2
        exact rebalance_nonzero_stays s.xErr (worstOf s.xErr width).2 _ _ radius
          hlo hhi hne hnz2
      · intro hc
        exact absurd h1 hc
  · rw [updateLines_of_row hz h1]
    dsimp only
    have hpnz : s.yErr.getD (worstOf s.yErr height).2 0 ≠ 0 := by
      rw [worstOf_getD_self]
      omega
    refine ⟨fun k => le_rfl, ?_, fun k h => h, ?_, ?_⟩
    · exact rebalance_mono s.yErr (worstOf s.yErr height).2 _ _ radius
        (row_range_dist height radius) (row_range_nonzero height radius)
    · exact rebalance_zero_stays s.yErr (worstOf s.yErr height).2 _ _ radius
        (row_range_nonzero height radius)
    · intro _
      refine ⟨fun hc => absurd hc h1, ?_⟩
      intro _
      refine ⟨rebalance_pivot _ _ _ _ _ (expandLo_le s.yErr (radius - 1) _)
        (expandHi_ge s.yErr height (radius - 1) _), ?_⟩
      intro jj hlo hhi hne hnz2
      exact rebalance_nonzero_stays s.yErr (worstOf s.yErr height).2 _ _ radius
        hlo hhi hne hnz2

/-- C5 witness at a concrete state. -/
theorem C5_witness :
    (0 < 2 ∧ 0 < 2 ∧ 0 < 2) ∧
    (∀ k, (updateLines 2 2 2 false (fun _ _ => (0, 0, 0)) [9, 9, 9]
        ⟨[5, 6], [4, 0], List.replicate 16 0x7f, 0, 0⟩).2.1.xErr.getD k 0 ≤
      ([5, 6] : List Nat).getD k 0) :=
  ⟨⟨by decide, by decide, by decide⟩,
   (C5_ruler_monotonicity 2 2 2 false (fun _ _ => (0, 0, 0)) [9, 9, 9]
      ⟨[5, 6], [4, 0], List.replicate 16 0x7f, 0, 0⟩
      (by decide) (by decide) (by decide)).1⟩

/-- C10: the pivot index is inside the canvas, both range expansions stay
inside `[0, width)` (resp. `[0, height)`), and hence every canvas byte index
`(jj*width + ii)*4 + c` touched by a splat lies inside the
`width*height*4`-byte canvas; the out-of-range default branch of the total
`List.getD` embedding is never the one read. -/
theorem C10_in_bounds (width height radius : Nat) (err : List Nat)
    (s : SplashState) (hW : 0 < width) (hH : 0 < height) (hr : 1 ≤ radius) :
    ((worstOf s.xErr width).2 < width ∧
     (worstOf s.yErr height).2 < height) ∧
    (∀ i, i < width →
      expandLo err i (radius - 1) ≤ i ∧
      i ≤ expandHi err width i (radius - 1) ∧
      expandHi err width i (radius - 1) < width) ∧
    (∀ j, j < height →
      expandLo err j (radius - 1) ≤ j ∧
      j ≤ expandHi err height j (radius - 1) ∧
      expandHi err height j (radius - 1) < height) ∧
    (∀ ii jj c, ii < width → jj < height → c < 4 →
      (jj * width + ii) * 4 + c < width * height * 4) := by
  refine ⟨⟨(worstOf_spec s.xErr width hW).1, (worstOf_spec s.yErr height hH).1⟩,
    ?_, ?_, ?_⟩
  · intro i hi
    exact ⟨expandLo_le err (radius - 1) i, expandHi_ge err width (radius - 1) i,
      expandHi_lt_bound err width (radius - 1) i hi⟩
  · intro j hj
    exact ⟨expandLo_le err (radius - 1) j, expandHi_ge err height (radius - 1) j,
      expandHi_lt_bound err height (radius - 1) j hj⟩
  · intro ii jj c hii hjj hc
    have h1 : jj * width + ii < height * width := by
      have h2 : jj + 1 ≤ height := hjj
      have h3 : (jj + 1) * width ≤ height * width := Nat.mul_le_mul_right width h2
      rw [Nat.succ_mul] at h3
      omega
    have h4 : (jj * width + ii) * 4 + c < (height * width) * 4 := by omega
    have h5 : height * width * 4 = width * height * 4 := by ring
    omega

/-- C10 witness at a concrete state. -/
theorem C10_witness :
    (0 < 3 ∧ 0 < 2 ∧ 1 ≤ 2) ∧
    (∀ ii jj c, ii < 3 → jj < 2 → c < 4 → (jj * 3 + ii) * 4 + c < 3 * 2 * 4) :=
  ⟨⟨by decide, by decide, by decide⟩,
   (C10_in_bounds 3 2 2 [1, 0, 2] ⟨[1, 0, 2], [4, 5], List.replicate 24 0, 0, 0⟩
      (by decide) (by decide) (by decide)).2.2.2⟩

/-- C3: the init loop stores only 3 bytes per pixel into the 4-byte-stride
canvas, so on a 2×1 canvas (buffer of 8 bytes, 6 bytes written) the blue
channel of pixel (1,0) — byte `(0*2+1)*4 + 2 = 6` — reads uninitialized
memory (here the zeroed supply), not `0x7f`, refuting "every one of the
three channels of every pixel holds 0x7F". -/
theorem C3_init_bug :
    (splash_init_pixels 2 1 (fun _ => 0)).length = 2 * 1 * 4 ∧
    (splash_init_pixels 2 1 (fun _ => 0)).getD ((0 * 2 + 1) * 4 + 2) 0 = 0 ∧
    ¬ (∀ i j c, i < 2 → j < 1 → c < 3 →
        (splash_init_pixels 2 1 (fun _ => 0)).getD ((j * 2 + i) * 4 + c) 0 = 0x7f) := by
  refine ⟨by decide, by decide, ?_⟩
  intro h
  have := h 1 0 2 (by decide) (by decide) (by decide)
  simp [splash_init_pixels] at this

/-- What the init loop does establish: the first `3*width*height` canvas
bytes are `0x7f` (so the claim does hold on a 1×1 canvas, where those cover
all three channels). -/
theorem splash_init_prefix (width height : Nat) (junk : Nat → Nat) :
    ∀ k, k < 3 * (width * height) →
    (splash_init_pixels width height junk).getD k 0 = 0x7f := by
  intro k hk
  unfold splash_init_pixels
  rw [getD_map_range (by omega), if_pos hk]

/-- C2: the decoder performs no header validation at all.  A packet whose
magic is `XXXXXX` (not `splash`) and whose version byte is 2 (> 1) is
decoded without error and the canvas is exported (`got_frame = 1`, success
return); the same holds for a packet shorter than `12 + 3W + 3H` bytes
(here the bare 12-byte header). -/
theorem C2_no_validation :
    ((splash_decode 1 1 (splash_init_pixels 1 1 fun _ => 0)
        [12, 0, 0, 88, 88, 88, 88, 88, 88, 2, 1, 0, 0, 0, 0, 0, 0, 0]).gotFrame = true ∧
     (splash_decode 1 1 (splash_init_pixels 1 1 fun _ => 0)
        [12, 0, 0, 88, 88, 88, 88, 88, 88, 2, 1, 0, 0, 0, 0, 0, 0, 0]).frame =
       [0x7f, 0x7f, 0x7f, 255]) ∧
    ((splash_decode 1 1 (splash_init_pixels 1 1 fun _ => 0)
        [12, 0, 0, 88, 88, 88, 88, 88, 88, 2, 1, 0]).gotFrame = true ∧
     (splash_decode 1 1 (splash_init_pixels 1 1 fun _ => 0)
        [12, 0, 0, 88, 88, 88, 88, 88, 88, 2, 1, 0]).frame =
       [0x7f, 0x7f, 0x7f, 255]) := by
  exact ⟨⟨by decide, by decide⟩, ⟨by decide, by decide⟩⟩

/-- C4 counterexample: even when the uninitialized canvas tail reads as
`0x7f` (so the init bug is masked), the emitted packet is 60 bytes
(`12 + 3·8 + 3·8 + 0`), not 84 as claimed; and with zeroed uninitialized
memory the initial `xErr` is not zero at all (column 0 sums to 762). -/
theorem C4_counterexample :
    ((splash_encode 8 8 5 0 1 2 (splash_init_pixels 8 8 fun _ => 0x7f)
        (fun _ _ => (0x7f, 0x7f, 0x7f))).packetSize = 60 ∧ (60 : Nat) ≠ 84) ∧
    (xErrInit 8 8 (splash_init_pixels 8 8 fun _ => 0)
        (fun _ _ => (0x7f, 0x7f, 0x7f))).getD 0 0 = 762 := by
  exact ⟨⟨by decide, by decide⟩, by decide⟩

set_option maxRecDepth 100000 in
set_option maxHeartbeats 4000000 in
/-- C4 (amended): in the 8×8 uniform-gray scenario with radius 5, **when the
uninitialized canvas bytes read as 0x7f**, the initial rulers are entirely
zero, the engine returns `false` on its first invocation, zero samples are
emitted, the packet is exactly 60 bytes (12 + 3·8 + 3·8 + 0), and decoding
that packet (on a context whose canvas also reads all-0x7f) reproduces the
all-mid-gray canvas. -/
theorem C4_uniform_gray :
    xErrInit 8 8 (splash_init_pixels 8 8 fun _ => 0x7f)
      (fun _ _ => (0x7f, 0x7f, 0x7f)) = List.replicate 8 0 ∧
    yErrInit 8 8 (splash_init_pixels 8 8 fun _ => 0x7f)
      (fun _ _ => (0x7f, 0x7f, 0x7f)) = List.replicate 8 0 ∧
    (updateLines 8 8 5 true (fun _ _ => (0x7f, 0x7f, 0x7f)) []
      ⟨List.replicate 8 0, List.replicate 8 0,
       splash_init_pixels 8 8 (fun _ => 0x7f), 48, 0⟩).1 = false ∧
    (splash_encode 8 8 5 0 1 2 (splash_init_pixels 8 8 fun _ => 0x7f)
      (fun _ _ => (0x7f, 0x7f, 0x7f))).state.numPixels = 0 ∧
    (splash_encode 8 8 5 0 1 2 (splash_init_pixels 8 8 fun _ => 0x7f)
      (fun _ _ => (0x7f, 0x7f, 0x7f))).packetSize = 60 ∧
    (splash_encode 8 8 5 0 1 2 (splash_init_pixels 8 8 fun _ => 0x7f)
      (fun _ _ => (0x7f, 0x7f, 0x7f))).packet.length = 60 ∧
    (splash_decode 8 8 (splash_init_pixels 8 8 fun _ => 0x7f)
      (splash_encode 8 8 5 0 1 2 (splash_init_pixels 8 8 fun _ => 0x7f)
        (fun _ _ => (0x7f, 0x7f, 0x7f))).packet).frame =
      exportFrame 8 8 (splash_init_pixels 8 8 fun _ => 0x7f) := by
  exact ⟨by decide, by decide, by decide, by decide, by decide, by decide, by decide⟩

/-- C1 counterexample: radius 257 is a legal encoder option but is stored on
the wire as the single byte `1`; the decoder then runs the engine with
radius 1 and reconstructs a canvas different from the encoder's final
canvas, refuting the claim for arbitrary parameter sets. -/
theorem C1_counterexample :
    (splash_encode 2 2 257 0 1 1 (splash_init_pixels 2 2 fun _ => 0x7f)
      (fun i j => (40 * i + 17, 80 * j + 3, 200))).packet.getD 10 0 = 1 ∧
    (splash_decode 2 2 (splash_init_pixels 2 2 fun _ => 0x7f)
      (splash_encode 2 2 257 0 1 1 (splash_init_pixels 2 2 fun _ => 0x7f)
        (fun i j => (40 * i + 17, 80 * j + 3, 200))).packet).state.pixels ≠
    (splash_encode 2 2 257 0 1 1 (splash_init_pixels 2 2 fun _ => 0x7f)
      (fun i j => (40 * i + 17, 80 * j + 3, 200))).state.pixels := by
  exact ⟨by decide, by decide⟩

/-- C1 witness: a concrete 1×1 round trip through
`C1_roundtrip_determinism`. -/
theorem C1_witness :
    ((0 : Nat) < 1 ∧ (0 : Nat) < 1 ∧ (1 : Nat) ≤ 1 ∧ (1 : Nat) ≤ 255) ∧
    (splash_decode 1 1 (splash_init_pixels 1 1 fun _ => 0)
      (splash_encode 1 1 1 0 1 1 (splash_init_pixels 1 1 fun _ => 0)
        (fun _ _ => (10, 20, 30))).packet).state.pixels =
    (splash_encode 1 1 1 0 1 1 (splash_init_pixels 1 1 fun _ => 0)
      (fun _ _ => (10, 20, 30))).state.pixels :=
  ⟨⟨by decide, by decide, by decide, by decide⟩,
   ((C1_roundtrip_determinism 1 1 1 0 1 1 (splash_init_pixels 1 1 fun _ => 0)
      (fun _ _ => (10, 20, 30)) (by decide) (by decide) (by decide) (by decide)).1).1⟩

/-- C9: the blend weight `alpha = 256 - round(256*xyerr)` lies in `[0, 256]`
whenever both ruler entries read by the splat are at most `maxError` (no
explicit clamp is needed); blended channels of in-range inputs stay in
`[0, 255]`, so the `uint8_t` store does not truncate; at every iteration the
ruler entries read by the splats are indeed bounded by `maxError`, the
pivot's pre-rebalance value (strictly for the perpendicular ruler in
column-major mode); and the engine keeps every canvas byte below 256. -/
theorem C9_blend_weight_range (width height radius : Nat) (b : Bool)
    (pic : Nat → Nat → Nat × Nat × Nat) (data : List Nat) (s : SplashState)
    (hxlen : s.xErr.length = width) (hylen : s.yErr.length = height)
    (hW : 0 < width) (hH : 0 < height) :
    (∀ xE yE m : Nat, xE ≤ m → yE ≤ m →
      0 ≤ splatAlpha xE yE m ∧ splatAlpha xE yE m ≤ 256) ∧
    (∀ sv old : Nat, ∀ a : ℤ, sv < 256 → old < 256 → 0 ≤ a → a ≤ 256 →
      0 ≤ blend8 sv old a ∧ blend8 sv old a ≤ 255 ∧
      (store8 (blend8 sv old a) : ℤ) = blend8 sv old a) ∧
    ((updateLines width height radius b pic data s).1 = true →
      ((worstOf s.xErr width).1 > (worstOf s.yErr height).1 →
        (∀ ii, (updateLines width height radius b pic data s).2.1.xErr.getD ii 0 ≤
          s.xErr.getD (worstOf s.xErr width).2 0) ∧
        (∀ jj, s.yErr.getD jj 0 < s.xErr.getD (worstOf s.xErr width).2 0)) ∧
      (¬ (worstOf s.xErr width).1 > (worstOf s.yErr height).1 →
        (∀ jj, (updateLines width height radius b pic data s).2.1.yErr.getD jj 0 ≤
          s.yErr.getD (worstOf s.yErr height).2 0) ∧
        (∀ ii, s.xErr.getD ii 0 ≤ s.yErr.getD (worstOf s.yErr height).2 0))) ∧
    ((∀ u, s.pixels.getD u 0 < 256) →
      ∀ u, (updateLines width height radius b pic data s).2.1.pixels.getD u 0 < 256) := by
  refine ⟨?_, ?_, ?_, fun h u => updateLines_WF h u⟩
  · intro xE yE m hx hy
    exact ⟨splatAlpha_nonneg hx hy, splatAlpha_le_256 xE yE m⟩
  · intro sv old a hs ho h0 h1
    refine ⟨blend8_nonneg h0 h1, blend8_le_255 hs ho h0 h1, ?_⟩
    rw [store8_of_range (blend8_nonneg h0 h1)
      (by have := blend8_le_255 hs ho h0 h1; omega)]
    exact Int.toNat_of_nonneg (blend8_nonneg h0 h1)
  · intro hdone
    have hz : ¬ (worstOf s.xErr width).1 + (worstOf s.yErr height).1 = 0 := by
      intro hc
      rw [updateLines_of_allzero hc] at hdone
      simp at hdone
    constructor
    · intro h1
      have hme : s.xErr.getD (worstOf s.xErr width).2 0 = (worstOf s.xErr width).1 :=
        worstOf_getD_self s.xErr width
      have hm1 : 1 ≤ s.xErr.getD (worstOf s.xErr width).2 0 := by omega
      constructor
      · rw [updateLines_of_col hz h1]
        dsimp only
        apply rebalance_le_max s.xErr (worstOf s.xErr width).2 _ _ radius
          (col_range_dist width radius) hm1
        intro ii
        rcases Nat.lt_or_ge ii width with hii | hii
        · rw [hme]
          exact (worstOf_spec s.xErr width hW).2.2.1 ii hii
        · rw [getD_eq_zero_of_le (by omega)]
          omega
      · intro jj
        rcases Nat.lt_or_ge jj height with hjj | hjj
        · have := (worstOf_spec s.yErr height hH).2.2.1 jj hjj
          omega
        · rw [getD_eq_zero_of_le (by omega)]
          omega
    · intro h1
      have hme : s.yErr.getD (worstOf s.yErr height).2 0 = (worstOf s.yErr height).1 :=
        worstOf_getD_self s.yErr height
      have hm1 : 1 ≤ s.yErr.getD (worstOf s.yErr height).2 0 := by omega
      constructor
      · rw [updateLines_of_row hz h1]
        dsimp only
        apply rebalance_le_max s.yErr (worstOf s.yErr height).2 _ _ radius
          (row_range_dist height radius) hm1
        intro jj
        rcases Nat.lt_or_ge jj height with hjj | hjj
        · rw [hme]
          exact (worstOf_spec s.yErr height hH).2.2.1 jj hjj
        · rw [getD_eq_zero_of_le (by omega)]
          omega
      · intro ii
        rcases Nat.lt_or_ge ii width with hii | hii
        · have := (worstOf_spec s.xErr width hW).2.2.1 ii hii
          omega
        · rw [getD_eq_zero_of_le (by omega)]
          omega

/-- The value written by a splat at its own cross point: the guard passes
(distance 0), the weight is `alpha = 256`, and the blended value is exactly
the sample. -/
theorem splatPixel_center (width radius maxError : Nat) (xErr yErr : List Nat)
    (i j sR sG sB : Nat) (px : List Nat)
    (hx : xErr.getD i 0 = 0) (hy : yErr.getD j 0 = 0) (hr : 1 ≤ radius)
    (hsR : sR < 256) (hsG : sG < 256) (hsB : sB < 256)
    (hlen : (j * width + i) * 4 + 2 < px.length) :
    (splatPixel width radius maxError xErr yErr i j sR sG sB i j px).getD
      ((j * width + i) * 4) 0 = sR ∧
    (splatPixel width radius maxError xErr yErr i j sR sG sB i j px).getD
      ((j * width + i) * 4 + 1) 0 = sG ∧
    (splatPixel width radius maxError xErr yErr i j sR sG sB i j px).getD
      ((j * width + i) * 4 + 2) 0 = sB := by
  unfold splatPixel
  rw [if_pos (by
    simp only [Nat.dist_self]
    have : 1 ≤ radius ^ 2 := Nat.one_le_pow 2 radius (by omega)
    omega)]
  rw [hx, hy, splatAlpha_zero_zero]
  dsimp only
  rw [blend8_alpha_full, blend8_alpha_full, blend8_alpha_full,
    store8_coe hsR, store8_coe hsG, store8_coe hsB]
  refine ⟨?_, ?_, ?_⟩
  · rw [getD_set_cases, if_neg (by omega)]
    rw [getD_set_cases, if_neg (by omega)]
    rw [getD_set_cases, if_pos ⟨rfl, by omega⟩]
  · rw [getD_set_cases, if_neg (by omega)]
    rw [getD_set_cases, if_pos ⟨rfl, by rw [List.length_set]; omega⟩]
  · rw [getD_set_cases, if_pos ⟨rfl, by rw [List.length_set, List.length_set]; omega⟩]

/-- The inner (column-major) row fold over `ii`, at a row `jj ≠ j`, does not
touch the three canvas bytes of pixel `(i, j)`. -/
theorem splatRowCM_preserves (width radius maxError : Nat) (xErr yErr : List Nat)
    (i0 j0 sR sG sB : Nat) (lo n : Nat) (jj : Nat) (px : List Nat)
    (i j : Nat) (hi : i < width) (hbound : lo + n ≤ width)
    (hne : jj ≠ j) (c : Nat) (hc : c < 3) :
    ((List.range' lo n).foldl
      (fun px2 ii => splatPixel width radius maxError xErr yErr i0 j0 sR sG sB ii jj px2)
      px).getD ((j * width + i) * 4 + c) 0 = px.getD ((j * width + i) * 4 + c) 0 := by
  apply foldl_preserve _
    (fun q => q.getD ((j * width + i) * 4 + c) 0 = px.getD ((j * width + i) * 4 + c) 0)
  · rfl
  · intro px2 ii hii hp
    rw [← hp]
    apply splatPixel_getD_ne
    intro c2 hc2
    rw [List.mem_range'] at hii
    obtain ⟨t, ht, hteq⟩ := hii
    exact (pixel_byte_ne hi (by omega)
      (by intro hcontra; exact hne hcontra.2) (by omega) (by omega)).symm

/-- The same-row fold (`jj = j`) touches the bytes of `(i, j)` only at
`ii = i`. -/
theorem splatRowCM_preserves_ne_col (width radius maxError : Nat)
    (xErr yErr : List Nat) (i0 j0 sR sG sB : Nat) (lo n : Nat) (px : List Nat)
    (i j : Nat) (hi : i < width) (hbound : lo + n ≤ width)
    (hno : ∀ ii, lo ≤ ii → ii < lo + n → ii ≠ i) (c : Nat) (hc : c < 3) :
    ((List.range' lo n).foldl
      (fun px2 ii => splatPixel width radius maxError xErr yErr i0 j0 sR sG sB ii j px2)
      px).getD ((j * width + i) * 4 + c) 0 = px.getD ((j * width + i) * 4 + c) 0 := by
  apply foldl_preserve _
    (fun q => q.getD ((j * width + i) * 4 + c) 0 = px.getD ((j * width + i) * 4 + c) 0)
  · rfl
  · intro px2 ii hii hp
    rw [← hp]
    apply splatPixel_getD_ne
    intro c2 hc2
    rw [List.mem_range'] at hii
    obtain ⟨t, ht, hteq⟩ := hii
    have hii_ne : ii ≠ i := hno ii (by omega) (by omega)
    exact (pixel_byte_ne hi (by omega)
      (by intro hcontra; exact hii_ne hcontra.1) (by omega) (by omega)).symm

/-- Split `range' lo n` at an interior point `mid`. -/
theorem range'_split (lo mid n : Nat) (h1 : lo ≤ mid) (h2 : mid < lo + n) :
    List.range' lo n = List.range' lo (mid - lo) ++ mid :: List.range' (mid + 1) (lo + n - mid - 1) := by
  have ha := List.range'_append lo (mid - lo) (n - (mid - lo)) 1
  have hb : lo + 1 * (mid - lo) = mid := by omega
  have hc : n - (mid - lo) + (mid - lo) = n := by omega
  rw [hb, hc] at ha
  rw [← ha]
  have hd : n - (mid - lo) = (lo + n - mid - 1) + 1 := by omega
  rw [hd, List.range'_succ]

/-- The inner (column-major) fold at the cross row `j` itself sets the three
canvas bytes of `(i, j)` to the sample. -/
theorem splatRowCM_center (width radius maxError : Nat) (xErr yErr : List Nat)
    (i j sR sG sB minI maxI : Nat) (px : List Nat)
    (hminI : minI ≤ i) (himaxI : i ≤ maxI) (hmaxI : maxI < width)
    (hx : xErr.getD i 0 = 0) (hy : yErr.getD j 0 = 0) (hr : 1 ≤ radius)
    (hsR : sR < 256) (hsG : sG < 256) (hsB : sB < 256)
    (hlen : (j * width + i) * 4 + 2 < px.length) :
    (((List.range' minI (maxI + 1 - minI)).foldl
      (fun px2 ii => splatPixel width radius maxError xErr yErr i j sR sG sB ii j px2)
      px).getD ((j * width + i) * 4) 0 = sR) ∧
    (((List.range' minI (maxI + 1 - minI)).foldl
      (fun px2 ii => splatPixel width radius maxError xErr yErr i j sR sG sB ii j px2)
      px).getD ((j * width + i) * 4 + 1) 0 = sG) ∧
    (((List.range' minI (maxI + 1 - minI)).foldl
      (fun px2 ii => splatPixel width radius maxError xErr yErr i j sR sG sB ii j px2)
      px).getD ((j * width + i) * 4 + 2) 0 = sB) := by
  rw [range'_split minI i (maxI + 1 - minI) hminI (by omega), List.foldl_append,
    List.foldl_cons]
  have hlenA : ((List.range' minI (i - minI)).foldl
      (fun px2 ii => splatPixel width radius maxError xErr yErr i j sR sG sB ii j px2)
      px).length = px.length := by
    apply foldl_preserve _ (fun p => p.length = px.length) _ _ rfl
    intro p ii _ hp
    rw [splatPixel_length, hp]
  have hcenter := splatPixel_center width radius maxError xErr yErr i j sR sG sB
    ((List.range' minI (i - minI)).foldl
      (fun px2 ii => splatPixel width radius maxError xErr yErr i j sR sG sB ii j px2)
      px)
    hx hy hr hsR hsG hsB (by rw [hlenA]; exact hlen)
  have heq : minI + (maxI + 1 - minI) - i - 1 = maxI - i := by omega
  rw [heq]
  have hpres := fun (c : Nat) (hc : c < 3) =>
    splatRowCM_preserves_ne_col width radius maxError xErr yErr i j sR sG sB
      (i + 1) (maxI - i)
      (splatPixel width radius maxError xErr yErr i j sR sG sB i j
        ((List.range' minI (i - minI)).foldl
          (fun px2 ii => splatPixel width radius maxError xErr yErr i j sR sG sB ii j px2)
          px))
      i j (by omega) (by omega) (by intro ii h1 h2; omega) c hc
  exact ⟨(hpres 0 (by omega)).trans hcenter.1,
    (hpres 1 (by omega)).trans hcenter.2.1,
    (hpres 2 (by omega)).trans hcenter.2.2⟩

/-- The column-major rectangle sets the three canvas bytes of its cross
point `(i, j)` to exactly the sample. -/
theorem splatRectCM_center (width radius maxError : Nat) (xErr yErr : List Nat)
    (i j sR sG sB minI maxI minJ maxJ : Nat) (px : List Nat)
    (hminI : minI ≤ i) (himaxI : i ≤ maxI) (hmaxI : maxI < width)
    (hminJ : minJ ≤ j) (hjmaxJ : j ≤ maxJ)
    (hx : xErr.getD i 0 = 0) (hy : yErr.getD j 0 = 0) (hr : 1 ≤ radius)
    (hsR : sR < 256) (hsG : sG < 256) (hsB : sB < 256)
    (hlen : (j * width + i) * 4 + 2 < px.length) :
    (splatRectCM width radius maxError xErr yErr i j sR sG sB
      minI maxI minJ maxJ px).getD ((j * width + i) * 4) 0 = sR ∧
    (splatRectCM width radius maxError xErr yErr i j sR sG sB
      minI maxI minJ maxJ px).getD ((j * width + i) * 4 + 1) 0 = sG ∧
    (splatRectCM width radius maxError xErr yErr i j sR sG sB
      minI maxI minJ maxJ px).getD ((j * width + i) * 4 + 2) 0 = sB := by
  unfold splatRectCM
  rw [range'_split minJ j (maxJ + 1 - minJ) hminJ (by omega), List.foldl_append,
    List.foldl_cons]
  have hlen1 : ((List.range' minJ (j - minJ)).foldl
      (fun p jj => (List.range' minI (maxI + 1 - minI)).foldl
        (fun px2 ii => splatPixel width radius maxError xErr yErr i j sR sG sB ii jj px2)
        p) px).length = px.length := by
    apply foldl_preserve _ (fun p => p.length = px.length) _ _ rfl
    intro p jj _ hp
    rw [← hp]
    apply foldl_preserve _ (fun p2 => p2.length = p.length) _ _ rfl
    intro p2 ii _ hp2
    rw [splatPixel_length, hp2]
  have hrow := splatRowCM_center width radius maxError xErr yErr i j sR sG sB
    minI maxI
    ((List.range' minJ (j - minJ)).foldl
      (fun p jj => (List.range' minI (maxI + 1 - minI)).foldl
        (fun px2 ii => splatPixel width radius maxError xErr yErr i j sR sG sB ii jj px2)
        p) px)
    hminI himaxI hmaxI hx hy hr hsR hsG hsB (by rw [hlen1]; exact hlen)
  have hpost : ∀ (q : List Nat) (c : Nat), c < 3 →
      ((List.range' (j + 1) (minJ + (maxJ + 1 - minJ) - j - 1)).foldl
        (fun p jj => (List.range' minI (maxI + 1 - minI)).foldl
          (fun px2 ii => splatPixel width radius maxError xErr yErr i j sR sG sB ii jj px2)
          p) q).getD ((j * width + i) * 4 + c) 0 = q.getD ((j * width + i) * 4 + c) 0 := by
    intro q c hc
    apply foldl_preserve _
      (fun p => p.getD ((j * width + i) * 4 + c) 0 = q.getD ((j * width + i) * 4 + c) 0)
      _ _ rfl
    intro p jj hjj hp
    rw [← hp]
    rw [List.mem_range'] at hjj
    obtain ⟨t, ht, hteq⟩ := hjj
    exact splatRowCM_preserves width radius maxError xErr yErr i j sR sG sB
      minI (maxI + 1 - minI) jj p i j (by omega) (by omega) (by omega) c hc
  exact ⟨(hpost _ 0 (by omega)).trans hrow.1,
    (hpost _ 1 (by omega)).trans hrow.2.1,
    (hpost _ 2 (by omega)).trans hrow.2.2⟩

/-- C9 witness at a concrete state. -/
theorem C9_witness :
    (([(3 : Nat), 9]).length = 2 ∧ ([(4 : Nat), 1]).length = 2 ∧ 0 < 2 ∧ 0 < 2) ∧
    (∀ xE yE m : Nat, xE ≤ m → yE ≤ m →
      0 ≤ splatAlpha xE yE m ∧ splatAlpha xE yE m ≤ 256) :=
  ⟨⟨by decide, by decide, by decide, by decide⟩,
   (C9_blend_weight_range 2 2 3 true (fun _ _ => (200, 100, 50)) []
      ⟨[3, 9], [4, 1], List.replicate 16 0x20, 0, 0⟩
      (by decide) (by decide) (by decide) (by decide)).1⟩

/-! ## C6: center-pixel identity -/

theorem splatRectCM_length (width radius maxError : Nat) (xErr yErr : List Nat)
    (i j sR sG sB minI maxI minJ maxJ : Nat) (px : List Nat) :
    (splatRectCM width radius maxError xErr yErr i j sR sG sB
      minI maxI minJ maxJ px).length = px.length := by
  unfold splatRectCM
  apply foldl_preserve _ (fun q => q.length = px.length) _ _ rfl
  intro q jj _ hq
  rw [← hq]
  apply foldl_preserve _ (fun q2 => q2.length = q.length) _ _ rfl
  intro q2 ii _ hq2
  rw [splatPixel_length, hq2]

theorem splatRectRM_length (width radius maxError : Nat) (xErr yErr : List Nat)
    (i j sR sG sB minI maxI minJ maxJ : Nat) (px : List Nat) :
    (splatRectRM width radius maxError xErr yErr i j sR sG sB
      minI maxI minJ maxJ px).length = px.length := by
  unfold splatRectRM
  apply foldl_preserve _ (fun q => q.length = px.length) _ _ rfl
  intro q ii _ hq
  rw [← hq]
  apply foldl_preserve _ (fun q2 => q2.length = q.length) _ _ rfl
  intro q2 jj _ hq2
  rw [splatPixel_length, hq2]

/-- An entry that is zero strictly below the start point bounds the downward
expansion: the expansion never reaches or passes a zero entry. -/
theorem expandLo_gt_zero (err : List Nat) (fuel p q : Nat)
    (hq : q < p) (h0 : err.getD q 0 = 0) : q < expandLo err p fuel := by
  by_contra hc
  push_neg at hc
  exact expandLo_nonzero err fuel p q hc hq h0

/-- The inner (row-major) column fold over `jj`, at a column `ii ≠ i`, does
not touch the three canvas bytes of pixel `(i, j)`. -/
theorem splatColRM_preserves (width radius maxError : Nat) (xErr yErr : List Nat)
    (i0 j0 sR sG sB : Nat) (lo n ii : Nat) (px : List Nat) (i j : Nat)
    (hi : i < width) (hii : ii < width) (hne : ii ≠ i) (c : Nat) (hc : c < 3) :
    ((List.range' lo n).foldl
      (fun px2 jj => splatPixel width radius maxError xErr yErr i0 j0 sR sG sB ii jj px2)
      px).getD ((j * width + i) * 4 + c) 0 = px.getD ((j * width + i) * 4 + c) 0 := by
  apply foldl_preserve _
    (fun q => q.getD ((j * width + i) * 4 + c) 0 = px.getD ((j * width + i) * 4 + c) 0)
  · rfl
  · intro px2 jj hjj hp
    rw [← hp]
    apply splatPixel_getD_ne
    intro c2 hc2
    exact (pixel_byte_ne hi hii
      (by intro hcontra; exact hne hcontra.1) (by omega) (by omega)).symm

/-- The same-column fold (`ii = i`) touches the bytes of `(i, j)` only at
`jj = j`. -/
theorem splatColRM_preserves_ne_row (width radius maxError : Nat)
    (xErr yErr : List Nat) (i0 j0 sR sG sB : Nat) (lo n : Nat) (px : List Nat)
    (i j : Nat) (hi : i < width)
    (hno : ∀ jj, lo ≤ jj → jj < lo + n → jj ≠ j) (c : Nat) (hc : c < 3) :
    ((List.range' lo n).foldl
      (fun px2 jj => splatPixel width radius maxError xErr yErr i0 j0 sR sG sB i jj px2)
      px).getD ((j * width + i) * 4 + c) 0 = px.getD ((j * width + i) * 4 + c) 0 := by
  apply foldl_preserve _
    (fun q => q.getD ((j * width + i) * 4 + c) 0 = px.getD ((j * width + i) * 4 + c) 0)
  · rfl
  · intro px2 jj hjj hp
    rw [← hp]
    apply splatPixel_getD_ne
    intro c2 hc2
    rw [List.mem_range'] at hjj
    obtain ⟨t, ht, hteq⟩ := hjj
    have hjj_ne : jj ≠ j := hno jj (by omega) (by omega)
    exact (pixel_byte_ne hi hi
      (by intro hcontra; exact hjj_ne hcontra.2) (by omega) (by omega)).symm

/-- The inner (row-major) fold at the cross column `i` itself sets the three
canvas bytes of `(i, j)` to the sample. -/
theorem splatColRM_center (width radius maxError : Nat) (xErr yErr : List Nat)
    (i j sR sG sB minJ maxJ : Nat) (px : List Nat)
    (hminJ : minJ ≤ j) (hjmaxJ : j ≤ maxJ) (hi : i < width)
    (hx : xErr.getD i 0 = 0) (hy : yErr.getD j 0 = 0) (hr : 1 ≤ radius)
    (hsR : sR < 256) (hsG : sG < 256) (hsB : sB < 256)
    (hlen : (j * width + i) * 4 + 2 < px.length) :
    (((List.range' minJ (maxJ + 1 - minJ)).foldl
      (fun px2 jj => splatPixel width radius maxError xErr yErr i j sR sG sB i jj px2)
      px).getD ((j * width + i) * 4) 0 = sR) ∧
    (((List.range' minJ (maxJ + 1 - minJ)).foldl
      (fun px2 jj => splatPixel width radius maxError xErr yErr i j sR sG sB i jj px2)
      px).getD ((j * width + i) * 4 + 1) 0 = sG) ∧
    (((List.range' minJ (maxJ + 1 - minJ)).foldl
      (fun px2 jj => splatPixel width radius maxError xErr yErr i j sR sG sB i jj px2)
      px).getD ((j * width + i) * 4 + 2) 0 = sB) := by
  rw [range'_split minJ j (maxJ + 1 - minJ) hminJ (by omega), List.foldl_append,
    List.foldl_cons]
  have hlenA : ((List.range' minJ (j - minJ)).foldl
      (fun px2 jj => splatPixel width radius maxError xErr yErr i j sR sG sB i jj px2)
      px).length = px.length := by
    apply foldl_preserve _ (fun p => p.length = px.length) _ _ rfl
    intro p jj _ hp
    rw [splatPixel_length, hp]
  have hcenter := splatPixel_center width radius maxError xErr yErr i j sR sG sB
    ((List.range' minJ (j - minJ)).foldl
      (fun px2 jj => splatPixel width radius maxError xErr yErr i j sR sG sB i jj px2)
      px)
    hx hy hr hsR hsG hsB (by rw [hlenA]; exact hlen)
  have heq : minJ + (maxJ + 1 - minJ) - j - 1 = maxJ - j := by omega
  rw [heq]
  have hpres := fun (c : Nat) (hc : c < 3) =>
    splatColRM_preserves_ne_row width radius maxError xErr yErr i j sR sG sB
      (j + 1) (maxJ - j)
      (splatPixel width radius maxError xErr yErr i j sR sG sB i j
        ((List.range' minJ (j - minJ)).foldl
          (fun px2 jj => splatPixel width radius maxError xErr yErr i j sR sG sB i jj px2)
          px))
      i j hi (by intro jj h1 h2; omega) c hc
  exact ⟨(hpres 0 (by omega)).trans hcenter.1,
    (hpres 1 (by omega)).trans hcenter.2.1,
    (hpres 2 (by omega)).trans hcenter.2.2⟩

/-- The row-major rectangle sets the three canvas bytes of its cross
point `(i, j)` to exactly the sample. -/
theorem splatRectRM_center (width radius maxError : Nat) (xErr yErr : List Nat)
    (i j sR sG sB minI maxI minJ maxJ : Nat) (px : List Nat)
    (hminI : minI ≤ i) (himaxI : i ≤ maxI) (hmaxI : maxI < width)
    (hminJ : minJ ≤ j) (hjmaxJ : j ≤ maxJ)
    (hx : xErr.getD i 0 = 0) (hy : yErr.getD j 0 = 0) (hr : 1 ≤ radius)
    (hsR : sR < 256) (hsG : sG < 256) (hsB : sB < 256)
    (hlen : (j * width + i) * 4 + 2 < px.length) :
    (splatRectRM width radius maxError xErr yErr i j sR sG sB
      minI maxI minJ maxJ px).getD ((j * width + i) * 4) 0 = sR ∧
    (splatRectRM width radius maxError xErr yErr i j sR sG sB
      minI maxI minJ maxJ px).getD ((j * width + i) * 4 + 1) 0 = sG ∧
    (splatRectRM width radius maxError xErr yErr i j sR sG sB
      minI maxI minJ maxJ px).getD ((j * width + i) * 4 + 2) 0 = sB := by
  unfold splatRectRM
  rw [range'_split minI i (maxI + 1 - minI) hminI (by omega), List.foldl_append,
    List.foldl_cons]
  have hlen1 : ((List.range' minI (i - minI)).foldl
      (fun p ii => (List.range' minJ (maxJ + 1 - minJ)).foldl
        (fun px2 jj => splatPixel width radius maxError xErr yErr i j sR sG sB ii jj px2)
        p) px).length = px.length := by
    apply foldl_preserve _ (fun p => p.length = px.length) _ _ rfl
    intro p ii _ hp
    rw [← hp]
    apply foldl_preserve _ (fun p2 => p2.length = p.length) _ _ rfl
    intro p2 jj _ hp2
    rw [splatPixel_length, hp2]
  have hcol := splatColRM_center width radius maxError xErr yErr i j sR sG sB
    minJ maxJ
    ((List.range' minI (i - minI)).foldl
      (fun p ii => (List.range' minJ (maxJ + 1 - minJ)).foldl
        (fun px2 jj => splatPixel width radius maxError xErr yErr i j sR sG sB ii jj px2)
        p) px)
    hminJ hjmaxJ (by omega) hx hy hr hsR hsG hsB (by rw [hlen1]; exact hlen)
  have hpost : ∀ (q : List Nat) (c : Nat), c < 3 →
      ((List.range' (i + 1) (minI + (maxI + 1 - minI) - i - 1)).foldl
        (fun p ii => (List.range' minJ (maxJ + 1 - minJ)).foldl
          (fun px2 jj => splatPixel width radius maxError xErr yErr i j sR sG sB ii jj px2)
          p) q).getD ((j * width + i) * 4 + c) 0 = q.getD ((j * width + i) * 4 + c) 0 := by
    intro q c hc
    apply foldl_preserve _
      (fun p => p.getD ((j * width + i) * 4 + c) 0 = q.getD ((j * width + i) * 4 + c) 0)
      _ _ rfl
    intro p ii hii hp
    rw [← hp]
    rw [List.mem_range'] at hii
    obtain ⟨t, ht, hteq⟩ := hii
    exact splatColRM_preserves width radius maxError xErr yErr i j sR sG sB
      minJ (maxJ + 1 - minJ) ii p i j (by omega) (by omega) (by omega) c hc
  exact ⟨(hpost _ 0 (by omega)).trans hcol.1,
    (hpost _ 1 (by omega)).trans hcol.2.1,
    (hpost _ 2 (by omega)).trans hcol.2.2⟩

/-- A column-major rectangle whose row range avoids `j` does not touch the
three canvas bytes of `(i, j)`. -/
theorem splatRectCM_preserves (width radius maxError : Nat) (xErr yErr : List Nat)
    (i0 j0 sR sG sB minI maxI minJ maxJ : Nat) (px : List Nat) (i j : Nat)
    (hi : i < width) (hIm : minI ≤ maxI) (hmaxI : maxI < width)
    (hno : ∀ jj, minJ ≤ jj → jj ≤ maxJ → jj ≠ j) (c : Nat) (hc : c < 3) :
    (splatRectCM width radius maxError xErr yErr i0 j0 sR sG sB
      minI maxI minJ maxJ px).getD ((j * width + i) * 4 + c) 0 =
    px.getD ((j * width + i) * 4 + c) 0 := by
  unfold splatRectCM
  apply foldl_preserve _
    (fun q => q.getD ((j * width + i) * 4 + c) 0 = px.getD ((j * width + i) * 4 + c) 0)
    _ _ rfl
  intro q jj hjj hq
  rw [← hq]
  rw [List.mem_range'] at hjj
  obtain ⟨t, ht, hteq⟩ := hjj
  exact splatRowCM_preserves width radius maxError xErr yErr i0 j0 sR sG sB
    minI (maxI + 1 - minI) jj q i j hi (by omega)
    (hno jj (by omega) (by omega)) c hc

/-- A row-major rectangle whose column range avoids `i` does not touch the
three canvas bytes of `(i, j)`. -/
theorem splatRectRM_preserves (width radius maxError : Nat) (xErr yErr : List Nat)
    (i0 j0 sR sG sB minI maxI minJ maxJ : Nat) (px : List Nat) (i j : Nat)
    (hi : i < width) (hmaxI : maxI < width)
    (hno : ∀ ii, minI ≤ ii → ii ≤ maxI → ii ≠ i) (c : Nat) (hc : c < 3) :
    (splatRectRM width radius maxError xErr yErr i0 j0 sR sG sB
      minI maxI minJ maxJ px).getD ((j * width + i) * 4 + c) 0 =
    px.getD ((j * width + i) * 4 + c) 0 := by
  unfold splatRectRM
  apply foldl_preserve _
    (fun q => q.getD ((j * width + i) * 4 + c) 0 = px.getD ((j * width + i) * 4 + c) 0)
    _ _ rfl
  intro q ii hii hq
  rw [← hq]
  rw [List.mem_range'] at hii
  obtain ⟨t, ht, hteq⟩ := hii
  exact splatColRM_preserves width radius maxError xErr yErr i0 j0 sR sG sB
    minJ (maxJ + 1 - minJ) ii q i j hi (by omega)
    (hno ii (by omega) (by omega)) c hc

/-- Every sample component is a byte. -/
theorem readSample_lt (b : Bool) (pic : Nat → Nat → Nat × Nat × Nat)
    (data : List Nat) (pos i j : Nat) :
    (readSample b pic data pos i j).1 < 256 ∧
    (readSample b pic data pos i j).2.1 < 256 ∧
    (readSample b pic data pos i j).2.2 < 256 := by
  unfold readSample byteAt
  cases b
  · exact ⟨Nat.mod_lt _ (by omega), Nat.mod_lt _ (by omega), Nat.mod_lt _ (by omega)⟩
  · exact ⟨Nat.mod_lt _ (by omega), Nat.mod_lt _ (by omega), Nat.mod_lt _ (by omega)⟩

/-- Column-major crosses whose perpendicular expansions stay above row `j`
do not touch the bytes of `(i, j)`. -/
theorem scanCM_preserves (b : Bool) (pic : Nat → Nat → Nat × Nat × Nat)
    (data : List Nat) (height radius width maxError : Nat)
    (xErr2 yErr : List Nat) (i minI maxI j : Nat)
    (hi : i < width) (hminI : minI ≤ i) (himaxI : i ≤ maxI) (hmaxI : maxI < width) :
    ∀ (rows : List Nat) (st : ScanSt),
    (∀ r ∈ rows, yErr.getD r 0 = 0 → j < expandLo yErr r (radius - 1)) →
    ∀ c, c < 3 →
    (scanCM b pic data height radius width maxError xErr2 yErr i minI maxI
      rows st).1.pixels.getD ((j * width + i) * 4 + c) 0 =
    st.pixels.getD ((j * width + i) * 4 + c) 0 := by
  intro rows
  induction rows with
  | nil =>
    intro st _ c hc
    simp [scanCM]
  | cons r rs ih =>
    intro st hrows c hc
    simp only [scanCM]
    by_cases hz : yErr.getD r 0 = 0
    · rw [if_pos hz]
      dsimp only
      rw [ih _ (fun r2 hr2 => hrows r2 (List.mem_cons_of_mem r hr2)) c hc]
      simp only [processCrossCM]
      exact splatRectCM_preserves width radius maxError xErr2 yErr i r _ _ _
        minI maxI (expandLo yErr r (radius - 1)) (expandHi yErr height r (radius - 1))
        st.pixels i j hi (by omega) hmaxI
        (fun jj h1 h2 => by
          have := hrows r (List.mem_cons_self r rs) hz
          omega) c hc
    · rw [if_neg hz]
      exact ih st (fun r2 hr2 => hrows r2 (List.mem_cons_of_mem r hr2)) c hc

/-- Row-major crosses whose perpendicular expansions stay right of column
`i0` do not touch the bytes of `(i0, j)`. -/
theorem scanRM_preserves (b : Bool) (pic : Nat → Nat → Nat × Nat × Nat)
    (data : List Nat) (width radius maxError : Nat)
    (xErr yErr2 : List Nat) (j minJ maxJ i0 : Nat)
    (hi0 : i0 < width) :
    ∀ (cols : List Nat) (st : ScanSt),
    (∀ r ∈ cols, r < width) →
    (∀ r ∈ cols, xErr.getD r 0 = 0 → i0 < expandLo xErr r (radius - 1)) →
    ∀ c, c < 3 →
    (scanRM b pic data width radius maxError xErr yErr2 j minJ maxJ
      cols st).1.pixels.getD ((j * width + i0) * 4 + c) 0 =
    st.pixels.getD ((j * width + i0) * 4 + c) 0 := by
  intro cols
  induction cols with
  | nil =>
    intro st _ _ c hc
    simp [scanRM]
  | cons r rs ih =>
    intro st hw hcols c hc
    simp only [scanRM]
    by_cases hz : xErr.getD r 0 = 0
    · rw [if_pos hz]
      dsimp only
      rw [ih _ (fun r2 h => hw r2 (List.mem_cons_of_mem r h))
        (fun r2 h => hcols r2 (List.mem_cons_of_mem r h)) c hc]
      simp only [processCrossRM]
      exact splatRectRM_preserves width radius maxError xErr yErr2 r j _ _ _
        (expandLo xErr r (radius - 1)) (expandHi xErr width r (radius - 1))
        minJ maxJ st.pixels i0 j hi0
        (expandHi_lt_bound xErr width (radius - 1) r (hw r (List.mem_cons_self r rs)))
        (fun ii h1 h2 => by
          have := hcols r (List.mem_cons_self r rs) hz
          omega) c hc
    · rw [if_neg hz]
      exact ih st (fun r2 h => hw r2 (List.mem_cons_of_mem r h))
        (fun r2 h => hcols r2 (List.mem_cons_of_mem r h)) c hc

/-- After the full column-major scan, the bytes of cross point `(i, j)` hold
exactly the sample read at the cross's stream position: the base position
plus 3 per zero row before `j`. -/
theorem scanCM_center (b : Bool) (pic : Nat → Nat → Nat × Nat × Nat)
    (data : List Nat) (height radius width maxError : Nat)
    (xErr2 yErr : List Nat) (i minI maxI : Nat)
    (hi : i < width) (hminI : minI ≤ i) (himaxI : i ≤ maxI) (hmaxI : maxI < width)
    (hx : xErr2.getD i 0 = 0) (hr : 1 ≤ radius) :
    ∀ (n a : Nat) (st : ScanSt) (j : Nat), a ≤ j → j < a + n →
    yErr.getD j 0 = 0 → (j * width + i) * 4 + 2 < st.pixels.length →
    ((scanCM b pic data height radius width maxError xErr2 yErr i minI maxI
        (List.range' a n) st).1.pixels.getD ((j * width + i) * 4) 0 =
      (readSample b pic data
        (st.pos + 3 * ((List.range' a (j - a)).countP fun r => yErr.getD r 0 == 0))
        i j).1) ∧
    ((scanCM b pic data height radius width maxError xErr2 yErr i minI maxI
        (List.range' a n) st).1.pixels.getD ((j * width + i) * 4 + 1) 0 =
      (readSample b pic data
        (st.pos + 3 * ((List.range' a (j - a)).countP fun r => yErr.getD r 0 == 0))
        i j).2.1) ∧
    ((scanCM b pic data height radius width maxError xErr2 yErr i minI maxI
        (List.range' a n) st).1.pixels.getD ((j * width + i) * 4 + 2) 0 =
      (readSample b pic data
        (st.pos + 3 * ((List.range' a (j - a)).countP fun r => yErr.getD r 0 == 0))
        i j).2.2) := by
  intro n
  induction n with
  | zero =>
    intro a st j h1 h2 h3 h4
    exact absurd h2 (by omega)
  | succ m ih =>
    intro a st j h1 h2 hyj hlen
    rw [List.range'_succ]
    by_cases hj : a = j
    · subst hj
      simp only [scanCM]
      rw [if_pos hyj]
      simp only [processCrossCM]
      rw [Nat.sub_self]
      have hs := readSample_lt b pic data st.pos i a
      have hrect := splatRectCM_center width radius maxError xErr2 yErr i a
        (readSample b pic data st.pos i a).1 (readSample b pic data st.pos i a).2.1
        (readSample b pic data st.pos i a).2.2 minI maxI
        (expandLo yErr a (radius - 1)) (expandHi yErr height a (radius - 1))
        st.pixels hminI himaxI hmaxI (expandLo_le yErr (radius - 1) a)
        (expandHi_ge yErr height (radius - 1) a) hx hyj hr hs.1 hs.2.1 hs.2.2 hlen
      have hkeep := scanCM_preserves b pic data height radius width maxError
        xErr2 yErr i minI maxI a hi hminI himaxI hmaxI (List.range' (a + 1) m)
        ⟨splatRectCM width radius maxError xErr2 yErr i a
          (readSample b pic data st.pos i a).1 (readSample b pic data st.pos i a).2.1
          (readSample b pic data st.pos i a).2.2 minI maxI
          (expandLo yErr a (radius - 1)) (expandHi yErr height a (radius - 1))
          st.pixels, st.pos + 3, if b then st.numPixels + 1 else st.numPixels⟩
        (fun r hr2 hz2 => by
          rw [List.mem_range'] at hr2
          obtain ⟨t, ht, hteq⟩ := hr2
          exact expandLo_gt_zero yErr (radius - 1) r a (by omega) hyj)
      exact ⟨(hkeep 0 (by omega)).trans hrect.1,
        (hkeep 1 (by omega)).trans hrect.2.1,
        (hkeep 2 (by omega)).trans hrect.2.2⟩
    · have hja : a < j := by omega
      simp only [scanCM]
      by_cases hza : yErr.getD a 0 = 0
      · rw [if_pos hza]
        simp only [processCrossCM]
        have hnext := ih (a + 1)
          ⟨splatRectCM width radius maxError xErr2 yErr i a
            (readSample b pic data st.pos i a).1 (readSample b pic data st.pos i a).2.1
            (readSample b pic data st.pos i a).2.2 minI maxI
            (expandLo yErr a (radius - 1)) (expandHi yErr height a (radius - 1))
            st.pixels, st.pos + 3, if b then st.numPixels + 1 else st.numPixels⟩
          j (by omega) (by omega) hyj
          (by
            dsimp only
            rw [splatRectCM_length]
            exact hlen)
        dsimp only at hnext
        have hcnt : (List.range' a (j - a)).countP (fun r => yErr.getD r 0 == 0) =
            (List.range' (a + 1) (j - (a + 1))).countP (fun r => yErr.getD r 0 == 0) + 1 := by
          have hsplit : j - a = (j - (a + 1)) + 1 := by omega
          rw [hsplit, List.range'_succ, List.countP_cons]
          rw [List.getD_eq_getElem?_getD] at hza
          simp [hza]
        have harg : st.pos + 3 +
            3 * ((List.range' (a + 1) (j - (a + 1))).countP fun r => yErr.getD r 0 == 0) =
            st.pos + 3 * ((List.range' a (j - a)).countP fun r => yErr.getD r 0 == 0) := by
          rw [hcnt]
          ring
        rw [harg] at hnext
        exact hnext
      · rw [if_neg hza]
        have hnext := ih (a + 1) st j (by omega) (by omega) hyj hlen
        have hcnt : (List.range' a (j - a)).countP (fun r => yErr.getD r 0 == 0) =
            (List.range' (a + 1) (j - (a + 1))).countP (fun r => yErr.getD r 0 == 0) := by
          have hsplit : j - a = (j - (a + 1)) + 1 := by omega
          rw [hsplit, List.range'_succ, List.countP_cons]
          rw [List.getD_eq_getElem?_getD] at hza
          simp [hza]
        rw [hcnt]
        exact hnext

/-- After the full row-major scan, the bytes of cross point `(i0, j)` hold
exactly the sample read at the cross's stream position. -/
theorem scanRM_center (b : Bool) (pic : Nat → Nat → Nat × Nat × Nat)
    (data : List Nat) (width radius maxError : Nat)
    (xErr yErr2 : List Nat) (j minJ maxJ : Nat)
    (hminJ : minJ ≤ j) (hjmaxJ : j ≤ maxJ)
    (hy : yErr2.getD j 0 = 0) (hr : 1 ≤ radius) :
    ∀ (n a : Nat) (st : ScanSt) (i0 : Nat), a ≤ i0 → i0 < a + n → a + n ≤ width →
    xErr.getD i0 0 = 0 → (j * width + i0) * 4 + 2 < st.pixels.length →
    ((scanRM b pic data width radius maxError xErr yErr2 j minJ maxJ
        (List.range' a n) st).1.pixels.getD ((j * width + i0) * 4) 0 =
      (readSample b pic data
        (st.pos + 3 * ((List.range' a (i0 - a)).countP fun r => xErr.getD r 0 == 0))
        i0 j).1) ∧
    ((scanRM b pic data width radius maxError xErr yErr2 j minJ maxJ
        (List.range' a n) st).1.pixels.getD ((j * width + i0) * 4 + 1) 0 =
      (readSample b pic data
        (st.pos + 3 * ((List.range' a (i0 - a)).countP fun r => xErr.getD r 0 == 0))
        i0 j).2.1) ∧
    ((scanRM b pic data width radius maxError xErr yErr2 j minJ maxJ
        (List.range' a n) st).1.pixels.getD ((j * width + i0) * 4 + 2) 0 =
      (readSample b pic data
        (st.pos + 3 * ((List.range' a (i0 - a)).countP fun r => xErr.getD r 0 == 0))
        i0 j).2.2) := by
  intro n
  induction n with
  | zero =>
    intro a st i0 h1 h2 h3 h4 h5
    exact absurd h2 (by omega)
  | succ m ih =>
    intro a st i0 h1 h2 hbound hxi hlen
    rw [List.range'_succ]
    by_cases hj : a = i0
    · subst hj
      simp only [scanRM]
      rw [if_pos hxi]
      simp only [processCrossRM]
      rw [Nat.sub_self]
      have hs := readSample_lt b pic data st.pos a j
      have hrect := splatRectRM_center width radius maxError xErr yErr2 a j
        (readSample b pic data st.pos a j).1 (readSample b pic data st.pos a j).2.1
        (readSample b pic data st.pos a j).2.2
        (expandLo xErr a (radius - 1)) (expandHi xErr width a (radius - 1))
        minJ maxJ st.pixels (expandLo_le xErr (radius - 1) a)
        (expandHi_ge xErr width (radius - 1) a)
        (expandHi_lt_bound xErr width (radius - 1) a (by omega))
        hminJ hjmaxJ hxi hy hr hs.1 hs.2.1 hs.2.2 hlen
      have hkeep := scanRM_preserves b pic data width radius maxError
        xErr yErr2 j minJ maxJ a (by omega) (List.range' (a + 1) m)
        ⟨splatRectRM width radius maxError xErr yErr2 a j
          (readSample b pic data st.pos a j).1 (readSample b pic data st.pos a j).2.1
          (readSample b pic data st.pos a j).2.2
          (expandLo xErr a (radius - 1)) (expandHi xErr width a (radius - 1))
          minJ maxJ st.pixels, st.pos + 3, if b then st.numPixels + 1 else st.numPixels⟩
        (fun r hr2 => by
          rw [List.mem_range'] at hr2
          obtain ⟨t, ht, hteq⟩ := hr2
          omega)
        (fun r hr2 hz2 => by
          rw [List.mem_range'] at hr2
          obtain ⟨t, ht, hteq⟩ := hr2
          exact expandLo_gt_zero xErr (radius - 1) r a (by omega) hxi)
      exact ⟨(hkeep 0 (by omega)).trans hrect.1,
        (hkeep 1 (by omega)).trans hrect.2.1,
        (hkeep 2 (by omega)).trans hrect.2.2⟩
    · have hja : a < i0 := by omega
      simp only [scanRM]
      by_cases hza : xErr.getD a 0 = 0
      · rw [if_pos hza]
        simp only [processCrossRM]
        have hnext := ih (a + 1)
          ⟨splatRectRM width radius maxError xErr yErr2 a j
            (readSample b pic data st.pos a j).1 (readSample b pic data st.pos a j).2.1
            (readSample b pic data st.pos a j).2.2
            (expandLo xErr a (radius - 1)) (expandHi xErr width a (radius - 1))
            minJ maxJ st.pixels, st.pos + 3, if b then st.numPixels + 1 else st.numPixels⟩
          i0 (by omega) (by omega) (by omega) hxi
          (by
            dsimp only
            rw [splatRectRM_length]
            exact hlen)
        dsimp only at hnext
        have hcnt : (List.range' a (i0 - a)).countP (fun r => xErr.getD r 0 == 0) =
            (List.range' (a + 1) (i0 - (a + 1))).countP (fun r => xErr.getD r 0 == 0) + 1 := by
          have hsplit : i0 - a = (i0 - (a + 1)) + 1 := by omega
          rw [hsplit, List.range'_succ, List.countP_cons]
          rw [List.getD_eq_getElem?_getD] at hza
          simp [hza]
        have harg : st.pos + 3 +
            3 * ((List.range' (a + 1) (i0 - (a + 1))).countP fun r => xErr.getD r 0 == 0) =
            st.pos + 3 * ((List.range' a (i0 - a)).countP fun r => xErr.getD r 0 == 0) := by
          rw [hcnt]
          ring
        rw [harg] at hnext
        exact hnext
      · rw [if_neg hza]
        have hnext := ih (a + 1) st i0 (by omega) (by omega) (by omega) hxi hlen
        have hcnt : (List.range' a (i0 - a)).countP (fun r => xErr.getD r 0 == 0) =
            (List.range' (a + 1) (i0 - (a + 1))).countP (fun r => xErr.getD r 0 == 0) := by
          have hsplit : i0 - a = (i0 - (a + 1)) + 1 := by omega
          rw [hsplit, List.range'_succ, List.countP_cons]
          rw [List.getD_eq_getElem?_getD] at hza
          simp [hza]
        rw [hcnt]
        exact hnext

set_option maxHeartbeats 1000000 in
/-- C6: in every engine iteration, at every pivot cross point `(i, j)` (the
pivot line meets a perpendicular line whose ruler entry is zero), the blend
weight `alpha` — computed from the post-rebalance pivot entry and the
perpendicular entry — equals 256, and after the iteration the canvas pixel
at `(i, j)` equals the transmitted sample exactly (the sample read at the
stream position of that cross: base position plus 3 bytes per earlier zero
perpendicular line).  Stated for the column-major branch and the row-major
branch of `updateLines`. -/
theorem C6_center_pixel (width height radius : Nat) (b : Bool)
    (pic : Nat → Nat → Nat × Nat × Nat) (data : List Nat) (s : SplashState)
    (hw : 0 < width) (hh : 0 < height) (hr : 1 ≤ radius)
    (hlen : s.pixels.length = width * height * 4) :
    ((worstOf s.yErr height).1 < (worstOf s.xErr width).1 →
      ∀ j, j < height → s.yErr.getD j 0 = 0 →
      splatAlpha
        ((rebalance s.xErr (worstOf s.xErr width).2
            (expandLo s.xErr (worstOf s.xErr width).2 (radius - 1))
            (expandHi s.xErr width (worstOf s.xErr width).2 (radius - 1))
            radius).getD (worstOf s.xErr width).2 0)
        (s.yErr.getD j 0) (s.xErr.getD (worstOf s.xErr width).2 0) = 256 ∧
      ((updateLines width height radius b pic data s).2.1.pixels.getD
          ((j * width + (worstOf s.xErr width).2) * 4) 0 =
        (readSample b pic data
          (s.pos + 3 * ((List.range j).countP fun r => s.yErr.getD r 0 == 0))
          (worstOf s.xErr width).2 j).1) ∧
      ((updateLines width height radius b pic data s).2.1.pixels.getD
          ((j * width + (worstOf s.xErr width).2) * 4 + 1) 0 =
        (readSample b pic data
          (s.pos + 3 * ((List.range j).countP fun r => s.yErr.getD r 0 == 0))
          (worstOf s.xErr width).2 j).2.1) ∧
      ((updateLines width height radius b pic data s).2.1.pixels.getD
          ((j * width + (worstOf s.xErr width).2) * 4 + 2) 0 =
        (readSample b pic data
          (s.pos + 3 * ((List.range j).countP fun r => s.yErr.getD r 0 == 0))
          (worstOf s.xErr width).2 j).2.2)) ∧
    ((worstOf s.xErr width).1 ≤ (worstOf s.yErr height).1 →
      (worstOf s.xErr width).1 + (worstOf s.yErr height).1 ≠ 0 →
      ∀ i, i < width → s.xErr.getD i 0 = 0 →
      splatAlpha (s.xErr.getD i 0)
        ((rebalance s.yErr (worstOf s.yErr height).2
            (expandLo s.yErr (worstOf s.yErr height).2 (radius - 1))
            (expandHi s.yErr height (worstOf s.yErr height).2 (radius - 1))
            radius).getD (worstOf s.yErr height).2 0)
        (s.yErr.getD (worstOf s.yErr height).2 0) = 256 ∧
      ((updateLines width height radius b pic data s).2.1.pixels.getD
          (((worstOf s.yErr height).2 * width + i) * 4) 0 =
        (readSample b pic data
          (s.pos + 3 * ((List.range i).countP fun r => s.xErr.getD r 0 == 0))
          i (worstOf s.yErr height).2).1) ∧
      ((updateLines width height radius b pic data s).2.1.pixels.getD
          (((worstOf s.yErr height).2 * width + i) * 4 + 1) 0 =
        (readSample b pic data
          (s.pos + 3 * ((List.range i).countP fun r => s.xErr.getD r 0 == 0))
          i (worstOf s.yErr height).2).2.1) ∧
      ((updateLines width height radius b pic data s).2.1.pixels.getD
          (((worstOf s.yErr height).2 * width + i) * 4 + 2) 0 =
        (readSample b pic data
          (s.pos + 3 * ((List.range i).countP fun r => s.xErr.getD r 0 == 0))
          i (worstOf s.yErr height).2).2.2)) := by
  constructor
  · intro hcm j hj hyj
    have hz : ¬ ((worstOf s.xErr width).1 + (worstOf s.yErr height).1 = 0) := by omega
    have h1 : (worstOf s.xErr width).1 > (worstOf s.yErr height).1 := hcm
    have hiw : (worstOf s.xErr width).2 < width := (worstOf_spec s.xErr width hw).1
    refine ⟨?_, ?_⟩
    · rw [rebalance_pivot s.xErr (worstOf s.xErr width).2 _ _ radius
        (expandLo_le s.xErr (radius - 1) (worstOf s.xErr width).2)
        (expandHi_ge s.xErr width (radius - 1) (worstOf s.xErr width).2), hyj]
      exact splatAlpha_zero_zero _
    · rw [updateLines_of_col hz h1]
      dsimp only
      have hsc := scanCM_center b pic data height radius width
        (s.xErr.getD (worstOf s.xErr width).2 0)
        (rebalance s.xErr (worstOf s.xErr width).2
          (expandLo s.xErr (worstOf s.xErr width).2 (radius - 1))
          (expandHi s.xErr width (worstOf s.xErr width).2 (radius - 1)) radius)
        s.yErr (worstOf s.xErr width).2
        (expandLo s.xErr (worstOf s.xErr width).2 (radius - 1))
        (expandHi s.xErr width (worstOf s.xErr width).2 (radius - 1))
        hiw
        (expandLo_le s.xErr (radius - 1) (worstOf s.xErr width).2)
        (expandHi_ge s.xErr width (radius - 1) (worstOf s.xErr width).2)
        (expandHi_lt_bound s.xErr width (radius - 1) (worstOf s.xErr width).2 hiw)
        (rebalance_pivot s.xErr (worstOf s.xErr width).2 _ _ radius
          (expandLo_le s.xErr (radius - 1) (worstOf s.xErr width).2)
          (expandHi_ge s.xErr width (radius - 1) (worstOf s.xErr width).2))
        hr height 0 ⟨s.pixels, s.pos, s.numPixels⟩ j (by omega) (by omega) hyj
        (by
          dsimp only
          rw [hlen]
          have h2 : (j + 1) * width ≤ height * width :=
            Nat.mul_le_mul_right width (by omega)
          rw [Nat.succ_mul] at h2
          have h3 : width * height * 4 = height * width * 4 := by ring
          omega)
      simp only [List.range_eq_range']
      exact hsc
  · intro hle hsum i hi hxi
    have h1 : ¬ (worstOf s.xErr width).1 > (worstOf s.yErr height).1 := by omega
    have hjh : (worstOf s.yErr height).2 < height := (worstOf_spec s.yErr height hh).1
    refine ⟨?_, ?_⟩
    · rw [rebalance_pivot s.yErr (worstOf s.yErr height).2 _ _ radius
        (expandLo_le s.yErr (radius - 1) (worstOf s.yErr height).2)
        (expandHi_ge s.yErr height (radius - 1) (worstOf s.yErr height).2), hxi]
      exact splatAlpha_zero_zero _
    · rw [updateLines_of_row hsum h1]
      dsimp only
      have hsc := scanRM_center b pic data width radius
        (s.yErr.getD (worstOf s.yErr height).2 0) s.xErr
        (rebalance s.yErr (worstOf s.yErr height).2
          (expandLo s.yErr (worstOf s.yErr height).2 (radius - 1))
          (expandHi s.yErr height (worstOf s.yErr height).2 (radius - 1)) radius)
        (worstOf s.yErr height).2
        (expandLo s.yErr (worstOf s.yErr height).2 (radius - 1))
        (expandHi s.yErr height (worstOf s.yErr height).2 (radius - 1))
        (expandLo_le s.yErr (radius - 1) (worstOf s.yErr height).2)
        (expandHi_ge s.yErr height (radius - 1) (worstOf s.yErr height).2)
        (rebalance_pivot s.yErr (worstOf s.yErr height).2 _ _ radius
          (expandLo_le s.yErr (radius - 1) (worstOf s.yErr height).2)
          (expandHi_ge s.yErr height (radius - 1) (worstOf s.yErr height).2))
        hr width 0 ⟨s.pixels, s.pos, s.numPixels⟩ i (by omega) (by omega) (by omega) hxi
        (by
          dsimp only
          rw [hlen]
          have h2 : ((worstOf s.yErr height).2 + 1) * width ≤ height * width :=
            Nat.mul_le_mul_right width (by omega)
          rw [Nat.succ_mul] at h2
          have h3 : width * height * 4 = height * width * 4 := by ring
          omega)
      simp only [List.range_eq_range']
      exact hsc

/-- C6 witness at a concrete column-major iteration: width = height = 2,
radius = 2, encoder mode, worst column 0, cross row 0. -/
theorem C6_witness :
    ((0 : Nat) < 2 ∧ (0 : Nat) < 2 ∧ 1 ≤ 2 ∧
      (List.replicate 16 5 : List Nat).length = 2 * 2 * 4 ∧
      (worstOf [0, 1] 2).1 < (worstOf [3, 1] 2).1 ∧
      (0 : Nat) < 2 ∧ ([0, 1] : List Nat).getD 0 0 = 0) ∧
    splatAlpha
      ((rebalance [3, 1] (worstOf [3, 1] 2).2
          (expandLo [3, 1] (worstOf [3, 1] 2).2 (2 - 1))
          (expandHi [3, 1] 2 (worstOf [3, 1] 2).2 (2 - 1)) 2).getD
        (worstOf [3, 1] 2).2 0)
      (([0, 1] : List Nat).getD 0 0)
      (([3, 1] : List Nat).getD (worstOf [3, 1] 2).2 0) = 256 ∧
    (updateLines 2 2 2 true (fun _ _ => (9, 8, 7)) []
        ⟨[3, 1], [0, 1], List.replicate 16 5, 0, 0⟩).2.1.pixels.getD
      ((0 * 2 + (worstOf [3, 1] 2).2) * 4) 0 =
    (readSample true (fun _ _ => (9, 8, 7)) []
      (0 + 3 * ((List.range 0).countP fun r => ([0, 1] : List Nat).getD r 0 == 0))
      (worstOf [3, 1] 2).2 0).1 := by
  have h := C6_center_pixel 2 2 2 true (fun _ _ => (9, 8, 7)) []
    ⟨[3, 1], [0, 1], List.replicate 16 5, 0, 0⟩
    (by decide) (by decide) (by decide) (by decide)
  have h2 := h.1 (by decide) 0 (by decide) (by decide)
  exact ⟨⟨by decide, by decide, by decide, by decide, by decide, by decide, by decide⟩,
    h2.1, h2.2.1⟩

end Splash
